import Mathlib

/-!
Formal model of the EO-DataHub accounting service.

This file gives a shallow embedding, in Lean 4, of the core data model and
operations of the accounting service: the billing-event store and its paginated
query (`models.py: BillingEvent.find_billing_events`), idempotent event and
sample ingestion (`insert_from_message`), the workspace→account map
(`WorkspaceAccount.record_mapping`), the price catalogue
(`BillingItemPrice.upsert_configured_price`), the consumption-rate estimator
(`BillableResourceConsumptionRateSample.calculate_consumption_for_interval` and
`ingester/messager.py: _generate_new_estimates`), and the HTTP authorisation
layer (`app/app.py: decode_jwt_token`, `workspace_authz`, `account_authz`).

Modelling conventions:
* timestamps are integers counting seconds since the Unix epoch, always UTC
  (the service normalises all inputs to UTC at the boundary);
* SQL tables are lists of records; SQL `WHERE`/`ORDER BY`/`LIMIT` become
  `List.filter`/a verified sort/`List.take`;
* Python `float` quantities and rates are modelled as exact rationals `ℚ`;
* UUID primary keys are modelled as `Nat` identifiers, except where the code
  constructs deterministic UUIDv5 values, which are modelled symbolically;
* Python `timedelta.seconds` (which discards whole days) is modelled as
  `% 86400`, matching Python's floor-mod semantics.

The file is organised as definitions first (the embedding of the code),
then theorems (general lemmas about the embedding, followed by one theorem
per specification claim together with its witnesses or counterexamples).
-/

namespace Accounting

/-! # Definitions -/

/- Timestamps are `Int` values: seconds since the Unix epoch, UTC. -/

/-- `dt.replace(minute=0, second=0, microsecond=0)` on a UTC datetime:
floor to the enclosing clock hour. -/
def floor_to_hour (t : Int) : Int := t - t % 3600

/-- Floor of a UTC timestamp to the enclosing UTC calendar day. -/
def floor_to_day (t : Int) : Int := t - t % 86400

/-- Lexicographic strict comparison of character lists.  SQL compares `TEXT`
values lexicographically; we model this with a structurally recursive
comparison on the character lists of the strings. -/
def charListLt : List Char → List Char → Bool
  | _, [] => false
  | [], _ :: _ => true
  | c :: cs, d :: ds => if c < d then true else if d < c then false else charListLt cs ds

/-- Strict lexicographic order on strings, as used for SQL `TEXT` comparison. -/
def strLt (a b : String) : Bool := charListLt a.data b.data

/-- Insert an element into a (sorted) list, keeping it sorted w.r.t. `le`. -/
def insertSorted {α : Type} (le : α → α → Bool) (a : α) : List α → List α
  | [] => [a]
  | b :: t => if le a b then a :: b :: t else b :: insertSorted le a t

/-- Insertion sort; models SQL `ORDER BY` with comparator `le`. -/
def sortBy {α : Type} (le : α → α → Bool) : List α → List α
  | [] => []
  | a :: t => insertSorted le a (sortBy le t)

/-- Leftmost element maximising `f`; models `ORDER BY f DESC LIMIT 1`. -/
def pickMaxBy {α : Type} (f : α → Int) : List α → Option α
  | [] => none
  | a :: t =>
    match pickMaxBy f t with
    | none => some a
    | some m => if f m ≤ f a then some a else some m

/-- Leftmost element minimising `f`; models `ORDER BY f ASC LIMIT 1`. -/
def pickMinBy {α : Type} (f : α → Int) : List α → Option α
  | [] => none
  | a :: t =>
    match pickMinBy f t with
    | none => some a
    | some m => if f a ≤ f m then some a else some m

/-- Sum of `(t₁ − t₀) · (r₀ + r₁) / 2` over consecutive vertices.
`calculate_consumption_for_interval` forms a list of `(time-offset, rate)`
vertices and integrates the piecewise-linear interpolation between them; its
loop over `zip(ratelist, ratelist[1:])` is this recursion. -/
def trapSum : List (ℚ × ℚ) → ℚ
  | p0 :: p1 :: rest => (p1.1 - p0.1) * ((p0.2 + p1.2) / 2) + trapSum (p1 :: rest)
  | _ => 0

/-! ## Data model (`models.py`) -/

/-- A row of the `billing_event` table.  `item` holds the SKU of the
referenced `BillingItem` (the `item_id` foreign key joined through
`billing_item.sku`). -/
structure BillingEvent where
  uuid : Nat
  event_start : Int
  event_end : Int
  item : String
  user : Option Nat
  workspace : String
  quantity : ℚ
deriving DecidableEq

/-- A row of the `workspace_account` table: which account contains each
workspace.  `workspace` is the primary key. -/
structure WorkspaceAccount where
  workspace : String
  account : Nat
deriving DecidableEq

/-- A row of the `billing_resource_consumption_rate_sample` table.  As for
events, `item` holds the SKU of the referenced `BillingItem`. -/
structure RateSample where
  uuid : Nat
  sample_time : Int
  item : String
  user : Option Nat
  workspace : String
  rate : ℚ
deriving DecidableEq

/-- The tables used by the billing-event queries: known SKUs (the
`billing_item` table), the workspace→account map, and billing events. -/
structure EventDB where
  items : List String
  accounts : List WorkspaceAccount
  events : List BillingEvent
deriving DecidableEq

/-! ## `BillingEvent.find_billing_events` (`models.py` lines 321–386) -/

/-- The `after` filter of `find_billing_events`: the `or_(...)` expression
deciding that `e` comes strictly after `after_be` in the total order
`(event_start, event_end, workspace, uuid)`. -/
def eventAfter (after_be e : BillingEvent) : Bool :=
  (after_be.event_start < e.event_start) ||
  (after_be.event_start == e.event_start && after_be.event_end < e.event_end) ||
  (after_be.event_start == e.event_start && after_be.event_end == e.event_end &&
    strLt after_be.workspace e.workspace) ||
  (after_be.event_start == e.event_start && after_be.event_end == e.event_end &&
    after_be.workspace == e.workspace && after_be.uuid < e.uuid)

/-- The comparator realising `ORDER BY (event_start, event_end, workspace,
uuid)`: `a` may be listed before `b` iff `a` is not strictly after `b`. -/
def eventLE (a b : BillingEvent) : Bool := ! eventAfter b a

/-- The sort key used by `find_billing_events` for ordering and paging. -/
def eventKey (e : BillingEvent) : Int × Int × String × Nat :=
  (e.event_start, e.event_end, e.workspace, e.uuid)

/-- The `WHERE` clauses of `find_billing_events`: optional workspace equality,
optional account membership via a join with `workspace_account`, optional
`event_start >= start` and `event_end < end`. -/
def matchesQuery (db : EventDB) (workspace : Option String) (account : Option Nat)
    (start end_ : Option Int) (e : BillingEvent) : Bool :=
  (match workspace with
   | none => true
   | some w => e.workspace == w) &&
  (match account with
   | none => true
   | some a => db.accounts.any (fun r => r.workspace == e.workspace && r.account == a)) &&
  (match start with
   | none => true
   | some s => s ≤ e.event_start) &&
  (match end_ with
   | none => true
   | some t => e.event_end < t)

/-- `BillingEvent.find_billing_events`: filter, resolve the `after` UUID with a
primary-key lookup (`session.get`), filter to rows strictly after it when it
resolves, order by the total order, and apply `LIMIT`. -/
def find_billing_events (db : EventDB) (workspace : Option String) (account : Option Nat)
    (start end_ : Option Int) (after : Option Nat) (limit : Nat) : List BillingEvent :=
  let filtered := db.events.filter (matchesQuery db workspace account start end_)
  let filtered :=
    match after with
    | none => filtered
    | some u =>
      match db.events.find? (fun e => e.uuid == u) with
      | none => filtered
      | some after_be => filtered.filter (eventAfter after_be)
  (sortBy eventLE filtered).take limit

/-- The full matching result set of `find_billing_events` in the total order:
what paging through all pages should enumerate. -/
def sortedEvents (db : EventDB) (workspace : Option String) (account : Option Nat)
    (start end_ : Option Int) : List BillingEvent :=
  sortBy eventLE (db.events.filter (matchesQuery db workspace account start end_))

/-- Repeated paging through `find_billing_events`: fetch a page, and while
pages are non-empty continue with `after` set to the UUID of the last event of
the previous page. -/
def pageThrough (db : EventDB) (workspace : Option String) (account : Option Nat)
    (start end_ : Option Int) (limit : Nat) : Nat → Option Nat → List BillingEvent
  | 0, _ => []
  | fuel + 1, after =>
    let page := find_billing_events db workspace account start end_ after limit
    match page.getLast? with
    | none => []
    | some last =>
      page ++ pageThrough db workspace account start end_ limit fuel (some last.uuid)

/-! ## The consumption estimator
(`BillableResourceConsumptionRateSample`, `models.py` lines 498–664) -/

instance : Inhabited RateSample := ⟨⟨0, 0, "", none, "", 0⟩⟩

/-- `seconds_after`: Python `(self.sample_time_utc - after).seconds` — the
seconds component of the timedelta, which discards whole days; for
whole-second datetimes this is the floor-mod by 86400. -/
def seconds_after (s : RateSample) (t : Int) : Int := (s.sample_time - t) % 86400

/-- `after`: `self.sample_time_utc > t`. -/
def sample_after (s : RateSample) (t : Int) : Bool := t < s.sample_time

/-- The `interpolate` helper of `calculate_consumption_for_interval`:
`s0.rate + proportion * (s1.rate - s0.rate)` where `proportion` is a true
timedelta ratio `(at - s0.sample_time) / (s1.sample_time - s0.sample_time)`,
exact in `ℚ`. -/
def interpolate (at_ : Int) (s0 s1 : RateSample) : ℚ :=
  s0.rate + ((at_ - s0.sample_time : Int) : ℚ) / ((s1.sample_time - s0.sample_time : Int) : ℚ)
    * (s1.rate - s0.rate)

/-- Comparator ordering rate samples by `sample_time`. -/
def sampleTimeLE (a b : RateSample) : Bool := a.sample_time ≤ b.sample_time

/-- `find_data_for_interval`: the last sample at or before `start`
(`ORDER BY sample_time DESC LIMIT 1`), all samples strictly inside the window,
and the first sample at or after `end`, merged in `sample_time` order (the
`union(...).order_by("sample_time")` of the PostgreSQL branch; the predecessor
precedes and the successor follows all in-window samples). -/
def find_data_for_interval (samples : List RateSample) (workspace sku : String)
    (start end_ : Int) : List RateSample :=
  let mine := samples.filter (fun s => s.workspace == workspace && s.item == sku)
  let last_before_start := pickMaxBy (fun s => s.sample_time)
    (mine.filter (fun s => s.sample_time ≤ start))
  let first_after_end := pickMinBy (fun s => s.sample_time)
    (mine.filter (fun s => end_ ≤ s.sample_time))
  let in_period := sortBy sampleTimeLE
    (mine.filter (fun s => start < s.sample_time && s.sample_time < end_))
  last_before_start.toList ++ in_period ++ first_after_end.toList

/-- Last two elements of a list (`rate_samples[-2]`, `rate_samples[-1]`);
`none` when the list has fewer than two elements. -/
def lastTwo {α : Type} : List α → Option (α × α)
  | [] => none
  | [_] => none
  | a :: b :: t =>
    match lastTwo (b :: t) with
    | none => some (a, b)
    | some p => some p

/-- The body of `calculate_consumption_for_interval` once `rate_samples` has
been fetched.  The source returns `None` for fewer than two samples and
otherwise uses `rate_samples[0]`, `rate_samples[1]`, `rate_samples[-2]` and
`rate_samples[-1]`; the simultaneous match on the first element and on
`lastTwo` is that guard, and `s1` (`rate_samples[1]`) is the head of the
tail. -/
def consumption_from_samples (rate_samples : List RateSample) (start end_ : Int) : Option ℚ :=
  match rate_samples, lastTwo rate_samples with
  | s0 :: tail, some (sm2, sm1) =>
    let s1 := tail.headD s0
    let starting : ℚ × ℚ :=
      if start < s0.sample_time then (((seconds_after s0 start : Int) : ℚ), 0)
      else (0, interpolate start s0 s1)
    let ending : ℚ × ℚ :=
      if sm1.sample_time < end_ then (((seconds_after sm1 start : Int) : ℚ), 0)
      else ((((end_ - start) % 86400 : Int) : ℚ), interpolate end_ sm2 sm1)
    let mids := (rate_samples.filter
      (fun s => sample_after s start && ! sample_after s end_)).map
      (fun s => (((seconds_after s start : Int) : ℚ), s.rate))
    some (trapSum ([starting] ++ mids ++ [ending]))
  | _, _ => none

/-- `calculate_consumption_for_interval`: fetch the rate samples for the
window and integrate. -/
def calculate_consumption_for_interval (samples : List RateSample) (workspace sku : String)
    (start end_ : Int) : Option ℚ :=
  consumption_from_samples (find_data_for_interval samples workspace sku start end_) start end_

/-- The quantity described by the specification, over the retrieved
`(predecessor?, in-window samples, successor?)` triple: the trapezoidal-rule
integral over the vertex list made of the start vertex (linear interpolation
at the window start between the predecessor and the next sample when a
predecessor exists, otherwise rate 0 at the first sample's time), the
in-window samples in time order at their exact offsets, and the symmetric end
vertex; undefined (`none`) when fewer than two samples were retrieved. -/
def spec_core (predOpt : Option RateSample) (mids : List RateSample)
    (succOpt : Option RateSample) (start end_ : Int) : Option ℚ :=
  if (predOpt.toList ++ mids ++ succOpt.toList).length ≤ 1 then none
  else
    let startv : ℚ × ℚ :=
      match predOpt with
      | some p => (0, interpolate start p ((mids ++ succOpt.toList).headD default))
      | none => ((((mids.headD default).sample_time - start : Int) : ℚ), 0)
    let endv : ℚ × ℚ :=
      match succOpt with
      | some q => (((end_ - start : Int) : ℚ),
          interpolate end_ ((predOpt.toList ++ mids).getLastD default) q)
      | none => ((((mids.getLastD default).sample_time - start : Int) : ℚ), 0)
    some (trapSum (startv ::
      mids.map (fun s => (((s.sample_time - start : Int) : ℚ), s.rate)) ++ [endv]))

/-- The specification's claimed value of `calculate_consumption_for_interval`:
`spec_core` applied to the retrieved predecessor, in-window samples and
successor of the window. -/
def spec_consumption (samples : List RateSample) (workspace sku : String)
    (start end_ : Int) : Option ℚ :=
  let mine := samples.filter (fun s => s.workspace == workspace && s.item == sku)
  spec_core
    (pickMaxBy (fun s => s.sample_time) (mine.filter (fun s => s.sample_time ≤ start)))
    (sortBy sampleTimeLE (mine.filter (fun s => start < s.sample_time && s.sample_time < end_)))
    (pickMinBy (fun s => s.sample_time) (mine.filter (fun s => end_ ≤ s.sample_time)))
    start end_

/-! ## The estimate generator
(`ConsumptionSampleRateIngesterMessager`, `ingester/messager.py`) -/

/-- UUIDs of billing events as created by the ingester: random version-4
UUIDs for discrete events, or the deterministic version-5 UUID of a
namespace/name pair for generated estimates (`uuid.uuid5`; the SHA-1 hash it
applies is injective for our purposes and is modelled symbolically by the
namespace/name pair itself). -/
inductive EvUuid
  | v4 (n : Nat)
  | v5 (ns : String) (name : String)
deriving DecidableEq

/-- A stored billing-event row as seen by the estimate generator.  The
`billing_event.quantity` column is `Mapped[float]` — NOT NULL — so a stored
row always has a quantity. -/
structure EstEvent where
  uuid : EvUuid
  event_start : Int
  event_end : Int
  sku : String
  workspace : String
  user : Option Nat
  quantity : ℚ
deriving DecidableEq

/-- A row passed to `session.add` by `_generate_new_estimates` before the
final commit: its `quantity` is the raw result of
`calculate_consumption_for_interval`, which may be `None`.  Flushing such a
row violates the NOT NULL constraint on `quantity`. -/
structure PendingEstimate where
  uuid : EvUuid
  event_start : Int
  event_end : Int
  sku : String
  workspace : String
  user : Option Nat
  quantity : Option ℚ
deriving DecidableEq

/-- Civil `(year, month, day)` from a day count since 1970-01-01 (proleptic
Gregorian calendar; `Int` division is floor division). -/
def civilFromDays (z0 : Int) : Int × Int × Int :=
  let z := z0 + 719468
  let era := z / 146097
  let doe := z - era * 146097
  let yoe := (doe - doe / 1460 + doe / 36524 - doe / 146096) / 365
  let y := yoe + era * 400
  let doy := doe - (365 * yoe + yoe / 4 - yoe / 100)
  let mp := (5 * doy + 2) / 153
  let d := doy - (153 * mp + 2) / 5 + 1
  let m := mp + (if mp < 10 then 3 else -9)
  (y + (if m ≤ 2 then 1 else 0), m, d)

/-- Zero-padding to two digits. -/
def pad2 (n : Int) : String := (if n < 10 then "0" else "") ++ toString n

/-- `datetime.isoformat()` for a whole-second, timezone-naive UTC datetime:
`YYYY-MM-DDTHH:MM:SS`. -/
def isoformat (t : Int) : String :=
  let ymd := civilFromDays (t / 86400)
  let secs := t % 86400
  toString ymd.1 ++ "-" ++ pad2 ymd.2.1 ++ "-" ++ pad2 ymd.2.2
    ++ "T" ++ pad2 (secs / 3600) ++ ":" ++ pad2 (secs % 3600 / 60) ++ ":" ++ pad2 (secs % 60)

/-- `BillingEvent.find_latest_billing_event`
(`ORDER BY event_end DESC LIMIT 1`), constrained by workspace and SKU. -/
def find_latest_billing_event (events : List EstEvent) (workspace sku : String) :
    Option EstEvent :=
  pickMaxBy (fun e => e.event_end)
    (events.filter (fun e => e.workspace == workspace && e.sku == sku))

/-- `BillableResourceConsumptionRateSample.find_earliest`
(`ORDER BY sample_time LIMIT 1`), constrained by workspace and item. -/
def find_earliest (samples : List RateSample) (workspace sku : String) : Option RateSample :=
  pickMinBy (fun s => s.sample_time)
    (samples.filter (fun s => s.workspace == workspace && s.item == sku))

/-- The fixed namespace of the deterministic estimate UUIDs. -/
def estimateNamespace : String := "67f9a35c-567c-4a30-b51d-2fc64328bd55"

/-- The BillingEvent row `_generate_new_estimates` adds to the session for
one window: `uuid.uuid5(namespace, workspace-sku-isoformat(start))`, the
window bounds, no user, and the raw estimated consumption as quantity. -/
def mkEstimate (samples : List RateSample) (workspace sku : String)
    (generate_from generate_to : Int) : PendingEstimate :=
  { uuid := EvUuid.v5 estimateNamespace
      (workspace ++ "-" ++ sku ++ "-" ++ isoformat generate_from),
    event_start := generate_from,
    event_end := generate_to,
    sku := sku,
    workspace := workspace,
    user := none,
    quantity := calculate_consumption_for_interval samples workspace sku
      generate_from generate_to }

/-- The `while generate_to <= upto` loop of `_generate_new_estimates`:
each window runs from `generate_from` to
`(generate_from + 1h).replace(minute=0, second=0, microsecond=0)`. -/
def genLoop (samples : List RateSample) (workspace sku : String) (upto : Int)
    (generate_from : Int) : List PendingEstimate :=
  if h : floor_to_hour (generate_from + 3600) ≤ upto then
    mkEstimate samples workspace sku generate_from (floor_to_hour (generate_from + 3600))
      :: genLoop samples workspace sku upto (floor_to_hour (generate_from + 3600))
  else []
termination_by (upto + 3600 - generate_from).toNat
decreasing_by
  have h1 : generate_from + 3600 - 3600 < floor_to_hour (generate_from + 3600) := by
    show generate_from + 3600 - 3600 < generate_from + 3600 - (generate_from + 3600) % 3600
    omega
  omega

/-- Where generation starts: the `event_end` of the latest existing
BillingEvent for the pair if one exists, otherwise the floor-to-hour of the
earliest recorded sample; `none` when neither exists (the source asserts). -/
def genStartingPoint (events : List EstEvent) (samples : List RateSample)
    (workspace sku : String) : Option Int :=
  match find_latest_billing_event events workspace sku with
  | some last_estimate => some last_estimate.event_end
  | none =>
    match find_earliest samples workspace sku with
    | some earliest => some (floor_to_hour earliest.sample_time)
    | none => none

/-- The stored row a pending row flushes to when its quantity is defined. -/
def estOfPending (p : PendingEstimate) : EstEvent :=
  ⟨p.uuid, p.event_start, p.event_end, p.sku, p.workspace, p.user, p.quantity.getD 0⟩

/-- The single `session.commit()` at the end of `_generate_new_estimates`:
every pending row must satisfy the NOT NULL constraint on `quantity`.  One
`None` quantity raises `IntegrityError` at flush and the whole transaction
rolls back, so either all rows are inserted or none is. -/
def flushEstimates : List PendingEstimate → Option (List EstEvent)
  | [] => some []
  | p :: rest =>
    match p.quantity, flushEstimates rest with
    | some _, some evs => some (estOfPending p :: evs)
    | _, _ => none

/-- The outcome of a `_generate_new_estimates` run. -/
inductive GenResult
  | ok (inserted : List EstEvent)
  | integrityError
deriving DecidableEq

/-- `_generate_new_estimates`: the rows the window loop adds to the session
are committed once at the end; a window whose computed consumption is `None`
makes the commit raise `IntegrityError`, inserting nothing.  The outer
`Option` is the source's `assert` that a starting point exists. -/
def generate_new_estimates (events : List EstEvent) (samples : List RateSample)
    (workspace sku : String) (upto : Int) : Option GenResult :=
  (genStartingPoint events samples workspace sku).map (fun generate_from =>
    match flushEstimates (genLoop samples workspace sku upto generate_from) with
    | some evs => GenResult.ok evs
    | none => GenResult.integrityError)

/-- A consumption-rate-sample message
(`billing-events-consumption-rate-samples` topic). -/
structure RateSampleMessage where
  uuid : Nat
  sample_time : Int
  sku : String
  user : Option Nat
  workspace : String
  rate : ℚ

/-- `ConsumptionSampleRateIngesterMessager.process_payload`: record the sample
(duplicate UUIDs ignored; SKU auto-creation is outside this model), then
generate estimates up to the start of the clock hour containing the message
timestamp (`msg_datetime.replace(minute=0, second=0, microsecond=0)`). -/
def process_rate_sample_payload (events : List EstEvent) (samples : List RateSample)
    (msg : RateSampleMessage) : List RateSample × Option GenResult :=
  let samples2 :=
    if samples.any (fun s => s.uuid == msg.uuid) then samples
    else samples ++ [⟨msg.uuid, msg.sample_time, msg.sku, msg.user, msg.workspace, msg.rate⟩]
  (samples2,
   generate_new_estimates events samples2 msg.workspace msg.sku
     (floor_to_hour msg.sample_time))

/-! ## Day aggregation of usage data (EventQuery aggregation)

`get_workspace_usage_data` forwards a `time_aggregation` argument to
`find_billing_events` and the API tests exercise it, but the version of
`models.py` in the tree does not take that parameter: the aggregation itself
is code of this repository missing from the source, so it is modelled from
the specification. -/

/-- Modelled from the spec: the aggregation grouping key
`(workspace, item, user, bucket)` where the bucket is the UTC day containing
`event_start`. -/
def aggKey (e : BillingEvent) : String × String × Option Nat × Int :=
  (e.workspace, e.item, e.user, floor_to_day e.event_start)

/-- Distinct keys of a key list (keeps the last occurrence of each key; the
rows built from them are ordered afterwards, so the order here is
irrelevant). -/
def dedupKeys : List (String × String × Option Nat × Int) →
    List (String × String × Option Nat × Int)
  | [] => []
  | k :: rest => if k ∈ rest then dedupKeys rest else k :: dedupKeys rest

/-- Modelled from the spec: the synthetic row of one group — quantities
summed, `event_start` at the bucket start, `event_end` at the bucket end, and
the `uuid` of the earliest contributing event. -/
def aggRow (events : List BillingEvent) (k : String × String × Option Nat × Int) :
    BillingEvent :=
  let grp := events.filter (fun e => aggKey e == k)
  { uuid := ((pickMinBy (fun e => e.event_start) grp).map (fun e => e.uuid)).getD 0,
    event_start := k.2.2.2,
    event_end := k.2.2.2 + 86400,
    item := k.2.1,
    user := k.2.2.1,
    workspace := k.1,
    quantity := (grp.map (fun e => e.quantity)).sum }

/-- Modelled from the spec: group the events by `aggKey` and build one
synthetic row per group. -/
def aggregateDay (events : List BillingEvent) : List BillingEvent :=
  (dedupKeys (events.map aggKey)).map (aggRow events)

/-- Modelled from the spec: `find_billing_events` with the optional
`time_aggregation` parameter — aggregation is applied between filtering and
ordering, and paging applies the same total order to the synthetic rows (the
`after` cursor is resolved among the synthetic rows when aggregating). -/
def find_billing_events_agg (db : EventDB) (workspace : Option String) (account : Option Nat)
    (start end_ : Option Int) (after : Option Nat) (limit : Nat)
    (time_aggregation : Option String) : List BillingEvent :=
  let filtered := db.events.filter (matchesQuery db workspace account start end_)
  let rows := if time_aggregation == some "day" then aggregateDay filtered else filtered
  let pool := if time_aggregation == some "day" then rows else db.events
  let rows :=
    match after with
    | none => rows
    | some u =>
      match pool.find? (fun e => e.uuid == u) with
      | none => rows
      | some after_be => rows.filter (eventAfter after_be)
  (sortBy eventLE rows).take limit

/-! ## Idempotent event insertion (`BillingEvent.insert_from_message`) -/

/-- A `billing-events` message. -/
structure BillingEventMessage where
  uuid : Nat
  event_start : Int
  event_end : Int
  sku : String
  user : Option Nat
  workspace : String
  quantity : ℚ

/-- The row a billing-event message inserts. -/
def eventOfMessage (msg : BillingEventMessage) : BillingEvent :=
  ⟨msg.uuid, msg.event_start, msg.event_end, msg.sku, msg.user, msg.workspace, msg.quantity⟩

inductive InsertError
  | integrityError
deriving DecidableEq

/-- `BillingEvent.insert_from_message`: resolve the SKU (an unknown SKU makes
the scalar subquery NULL, so the insert violates integrity), then insert with
`ON CONFLICT (uuid) DO NOTHING`, returning the inserted UUID or `none` for a
duplicate, leaving the stored row untouched. -/
def insert_from_message (db : EventDB) (msg : BillingEventMessage) :
    Except InsertError (EventDB × Option Nat) :=
  if db.items.contains msg.sku then
    if db.events.any (fun e => e.uuid == msg.uuid) then Except.ok (db, none)
    else Except.ok ({ db with events := db.events ++ [eventOfMessage msg] }, some msg.uuid)
  else Except.error InsertError.integrityError

/-! ## The price catalogue (`BillingItemPrice.upsert_configured_price`) -/

/-- A row of the `billing_item` table. -/
structure BillingItem where
  uuid : Nat
  sku : String
  name : String
  unit : String
deriving DecidableEq

/-- A row of the `billing_item_price` table. -/
structure BillingItemPrice where
  uuid : Nat
  item_id : Nat
  price : ℚ
  valid_from : Int
  valid_until : Option Int
  configured_at : Int
deriving DecidableEq

/-- The catalogue tables. -/
structure CatalogDB where
  items : List BillingItem
  prices : List BillingItemPrice
deriving DecidableEq

inductive PriceError
  | unknownSku
  | priceOutOfOrder
deriving DecidableEq

/-- `BillingItem.find_billing_item`. -/
def find_billing_item (db : CatalogDB) (sku : String) : Option BillingItem :=
  db.items.find? (fun i => i.sku == sku)

/-- `BillingItemPrice.upsert_configured_price`: unknown SKU fails; an exact
`(item, valid_from)` match updates only the price amount; a `valid_from`
earlier than the latest price fails; otherwise the latest price is closed at
`valid_from` and a new open-ended price is appended (fresh random UUID
`new_uuid`, `configured_at = now`). -/
def upsert_configured_price (db : CatalogDB) (sku : String) (valid_from : Int) (price : ℚ)
    (now : Int) (new_uuid : Nat) : Except PriceError CatalogDB :=
  match find_billing_item db sku with
  | none => Except.error PriceError.unknownSku
  | some item =>
    if db.prices.any (fun p => p.item_id == item.uuid && p.valid_from == valid_from) then
      Except.ok { db with prices := db.prices.map (fun p =>
        if p.item_id == item.uuid && p.valid_from == valid_from then { p with price := price }
        else p) }
    else
      match pickMaxBy (fun p => p.valid_from)
          (db.prices.filter (fun p => p.item_id == item.uuid)) with
      | some latest =>
        if valid_from < latest.valid_from then Except.error PriceError.priceOutOfOrder
        else Except.ok { db with prices :=
          (db.prices.map (fun p =>
            if p.uuid == latest.uuid then { p with valid_until := some valid_from } else p))
          ++ [⟨new_uuid, item.uuid, price, valid_from, none, now⟩] }
      | none =>
        Except.ok { db with prices :=
          db.prices ++ [⟨new_uuid, item.uuid, price, valid_from, none, now⟩] }

/-! ## The workspace→account map (`WorkspaceAccount.record_mapping`) -/

/-- `WorkspaceAccount.record_mapping`: conditional insert — only when no row
with that workspace exists; returns whether a row was inserted. -/
def record_mapping (db : List WorkspaceAccount) (account : Nat) (workspace : String) :
    List WorkspaceAccount × Bool :=
  if db.any (fun r => r.workspace == workspace) then (db, false)
  else (db ++ [⟨workspace, account⟩], true)

/-- A `workspace-settings` message. -/
structure WorkspaceSettingsMessage where
  name : String
  account : Nat

/-- `WorkspaceSettingsIngesterMessager.process_payload`. -/
def process_workspace_settings (db : List WorkspaceAccount)
    (msg : WorkspaceSettingsMessage) : List WorkspaceAccount × Bool :=
  record_mapping db msg.account msg.name

/-- The account currently mapped to a workspace. -/
def accountOf (db : List WorkspaceAccount) (workspace : String) : Option Nat :=
  (db.find? (fun r => r.workspace == workspace)).map (fun r => r.account)

/-- Folding a sequence of workspace-settings messages into the map. -/
def processAllSettings (db : List WorkspaceAccount) :
    List WorkspaceSettingsMessage → List WorkspaceAccount
  | [] => db
  | m :: rest => processAllSettings (process_workspace_settings db m).1 rest

/-! ## HTTP authorisation (`app/app.py`) -/

/-- The `realm_access` claim. -/
structure RealmAccess where
  roles : List String
deriving DecidableEq

/-- A decoded JWT payload.  The `workspaces`, `workspaces_owned` and
`billing-accounts` claims default to `[]` via `.get(...)`; `realm_access` is
optional because the code indexes the payload dict directly
(`token_payload["realm_access"]`), which raises `KeyError` when absent. -/
structure TokenPayload where
  workspaces : List String
  workspaces_owned : List String
  billing_accounts : List Nat
  realm_access : Option RealmAccess
deriving DecidableEq

/-- A well-formed bearer token: its payload and its signature. -/
structure Token where
  payload : TokenPayload
  signature : String
deriving DecidableEq

/-- `decode_jwt_token`: `jwt.decode(token, options={"verify_signature":
False}, ...)` — the payload claims are returned and the signature is never
checked. -/
def decode_jwt_token (t : Token) : TokenPayload := t.payload

inductive AuthzError
  | http (status : Nat) (detail : String)
  | keyError (key : String)
deriving DecidableEq

/-- `workspace_authz`: hub admins (when allowed) pass; owners are required
when `require_owner`; otherwise membership in `workspaces` is required.  The
roles are read with `token_payload["realm_access"].get("roles", [])` before
any check, so a missing `realm_access` raises. -/
def workspace_authz (workspace : String) (token_payload : TokenPayload)
    (require_owner : Bool) (allow_hub_admin : Bool) : Except AuthzError String :=
  let workspaces := token_payload.workspaces
  let owned := token_payload.workspaces_owned
  match token_payload.realm_access with
  | none => Except.error (AuthzError.keyError "realm_access")
  | some ra =>
    if allow_hub_admin && ra.roles.contains "hub_admin" then Except.ok workspace
    else if require_owner then
      if owned.contains workspace then Except.ok workspace
      else Except.error (AuthzError.http 401 "Must be workspace owner")
    else if workspaces.contains workspace then Except.ok workspace
    else Except.error (AuthzError.http 401 "Access to this workspace is not allowed")

/-- `account_authz`, same structure over `billing-accounts`. -/
def account_authz (account_id : Nat) (token_payload : TokenPayload)
    (allow_hub_admin : Bool) : Except AuthzError Nat :=
  let billing_accounts := token_payload.billing_accounts
  match token_payload.realm_access with
  | none => Except.error (AuthzError.keyError "realm_access")
  | some ra =>
    if allow_hub_admin && ra.roles.contains "hub_admin" then Except.ok account_id
    else if billing_accounts.contains account_id then Except.ok account_id
    else Except.error (AuthzError.http 401 "Must be account owner")

/-- Python `limit or 100`: both an absent limit and an explicit `0` become
the default 100. -/
def effective_limit (limit : Option Nat) : Nat :=
  match limit with
  | none => 100
  | some n => if n = 0 then 100 else n

/-- `get_workspace_usage_data`: decode the token, authorise (hub admin
allowed), then query with `limit or 100`, forwarding `time_aggregation`. -/
def get_workspace_usage_data (db : EventDB) (workspace : String) (token : Token)
    (start end_ : Option Int) (limit : Option Nat) (after : Option Nat)
    (time_aggregation : Option String) : Except AuthzError (List BillingEvent) :=
  let token_payload := decode_jwt_token token
  match workspace_authz workspace token_payload false true with
  | Except.error err => Except.error err
  | Except.ok w =>
    Except.ok (find_billing_events_agg db (some w) none start end_ after
      (effective_limit limit) time_aggregation)

/-- `get_account_usage_data`: as above, filtered by account, without
aggregation. -/
def get_account_usage_data (db : EventDB) (account_id : Nat) (token : Token)
    (start end_ : Option Int) (limit : Option Nat) (after : Option Nat) :
    Except AuthzError (List BillingEvent) :=
  let token_payload := decode_jwt_token token
  match account_authz account_id token_payload true with
  | Except.error err => Except.error err
  | Except.ok a =>
    Except.ok (find_billing_events db none (some a) start end_ after (effective_limit limit))

/-! ## Concrete example data -/

/-- Scenario E2: the four events of the day-aggregation scenario — times are
seconds since the epoch, `2025-01-01T00:00Z = 1735689600`. -/
def e2db : EventDB :=
  { items := ["sku1"],
    accounts := [],
    events := [
      ⟨1, 1735689600, 1735693200, "sku1", none, "workspace1", 1/100⟩,
      ⟨2, 1735696800, 1735700400, "sku1", none, "workspace1", 1/10⟩,
      ⟨3, 1735772400, 1735776000, "sku1", none, "workspace1", 1⟩,
      ⟨4, 1735783200, 1735786800, "sku1", none, "workspace1", 1/5⟩] }

/-- Scenario E6 start state: `sku1` with a single open-ended price £12.34
valid from 2025-01-01. -/
def e6db : CatalogDB :=
  { items := [⟨1, "sku1", "", ""⟩],
    prices := [⟨10, 1, 1234/100, 1735689600, none, 0⟩] }

/-- A one-event store for the duplicate-insert scenario. -/
def c5db : EventDB :=
  { items := ["s"], accounts := [],
    events := [⟨1, 0, 10, "s", none, "w", 5⟩] }

/-- A message re-using UUID 1 with different field values everywhere else. -/
def c5msgDup : BillingEventMessage := ⟨1, 99, 99, "s", none, "other", 7⟩

/-- A token payload that lists memberships but has no `realm_access` claim. -/
def payloadNoRealm : TokenPayload :=
  { workspaces := ["workspace1"],
    workspaces_owned := ["workspace1"],
    billing_accounts := [7],
    realm_access := none }

/-- A member token payload with an ordinary (non-admin) role set. -/
def payloadMember : TokenPayload :=
  { workspaces := ["workspace1"],
    workspaces_owned := [],
    billing_accounts := [7],
    realm_access := some ⟨["user"]⟩ }

/-- A stored billing event for `(w, s)` ending mid-hour (at 00:30): estimate
generation resumes from a point that is not hour-aligned. -/
def c3MisalignedEvents : List EstEvent :=
  [⟨EvUuid.v4 0, 0, 1800, "s", "w", none, 0⟩]

/-- Samples for `(w, s)` at `00:45` and `02:05`, both rate 2: every window of
the misaligned-resume run retrieves two samples, so every generated quantity
is defined and the commit succeeds. -/
def c3Samples : List RateSample :=
  [⟨1, 2700, "s", none, "w", 2⟩,
   ⟨2, 7500, "s", none, "w", 2⟩]

/-- Scenario E3: samples for `(workspace1, sku)` at `00:55` rate 2, `01:15`
rate 3, `01:25` rate 4, `01:50` rate 2, `02:05` rate 1 (seconds from
midnight). -/
def e3samples : List RateSample :=
  [⟨1, 3300, "sku", none, "workspace1", 2⟩,
   ⟨2, 4500, "sku", none, "workspace1", 3⟩,
   ⟨3, 5100, "sku", none, "workspace1", 4⟩,
   ⟨4, 6600, "sku", none, "workspace1", 2⟩,
   ⟨5, 7500, "sku", none, "workspace1", 1⟩]

/-- Scenario E4: samples at `00:45` rate 1 and `00:55` rate 2. -/
def e4samples : List RateSample :=
  [⟨1, 2700, "sku", none, "workspace1", 1⟩,
   ⟨2, 3300, "sku", none, "workspace1", 2⟩]

/-- Two samples of constant rate 2 bracketing a 25-hour window: Python
`timedelta.seconds` reduces the window length modulo 24 hours, so the
computed quantity is far below the trapezoidal integral. -/
def c2CounterSamples : List RateSample :=
  [⟨1, 0, "s", none, "w", 2⟩,
   ⟨2, 90000, "s", none, "w", 2⟩]

/-! ## Concrete example data (billing events) -/

/-- A small billing-event table with distinct UUIDs, used to witness the
paging and ordering properties on concrete data. -/
def dbPagingExample : EventDB :=
  { items := ["sku1"],
    accounts := [⟨"workspace1", 7⟩],
    events := [
      ⟨1, 300, 400, "sku1", none, "workspace1", 1⟩,
      ⟨2, 100, 200, "sku1", none, "workspace1", 2⟩,
      ⟨3, 200, 300, "sku1", none, "workspace1", 3⟩] }

end Accounting

namespace Accounting

/-! # Theorems -/

/-! ## General lemmas about the embedding -/

theorem floor_to_hour_le (t : Int) : floor_to_hour t ≤ t := by
  show t - t % 3600 ≤ t
  omega

theorem lt_floor_to_hour_add (t : Int) : t - 3600 < floor_to_hour t := by
  show t - 3600 < t - t % 3600
  omega

theorem charListLt_irrefl (l : List Char) : charListLt l l = false := by
  induction l with
  | nil => rfl
  | cons c cs ih => simp [charListLt, ih]

theorem charListLt_asymm {a b : List Char} (h : charListLt a b = true) :
    charListLt b a = false := by
  induction a generalizing b with
  | nil =>
    cases b with
    | nil => simp [charListLt] at h
    | cons d ds => simp [charListLt]
  | cons c cs ih =>
    cases b with
    | nil => simp [charListLt] at h
    | cons d ds =>
      simp only [charListLt] at h ⊢
      rcases lt_trichotomy c d with hcd | hcd | hcd
      · simp [hcd, not_lt.2 (le_of_lt hcd), lt_irrefl]
      · subst hcd; simp only [lt_irrefl, if_false] at h ⊢; exact ih h
      · simp [hcd, not_lt.2 (le_of_lt hcd)] at h

theorem charListLt_trans {a b c : List Char} (hab : charListLt a b = true)
    (hbc : charListLt b c = true) : charListLt a c = true := by
  induction a generalizing b c with
  | nil =>
    cases c with
    | nil =>
      cases b with
      | nil => exact hab
      | cons d ds => simp [charListLt] at hbc
    | cons e es => simp [charListLt]
  | cons x xs ih =>
    cases b with
    | nil => simp [charListLt] at hab
    | cons y ys =>
      cases c with
      | nil => simp [charListLt] at hbc
      | cons z zs =>
        simp only [charListLt] at hab hbc ⊢
        rcases lt_trichotomy x y with hxy | hxy | hxy
        · rcases lt_trichotomy y z with hyz | hyz | hyz
          · simp [lt_trans hxy hyz]
          · subst hyz; simp [hxy]
          · simp [hyz, not_lt.2 (le_of_lt hyz)] at hbc
        · subst hxy
          rcases lt_trichotomy x z with hxz | hxz | hxz
          · simp [hxz]
          · subst hxz
            simp only [lt_irrefl, if_false] at hab hbc ⊢
            exact ih hab hbc
          · simp [hxz, not_lt.2 (le_of_lt hxz)] at hbc
        · simp [hxy, not_lt.2 (le_of_lt hxy)] at hab

theorem charListLt_eq_of_not_lt {a b : List Char} (hab : charListLt a b = false)
    (hba : charListLt b a = false) : a = b := by
  induction a generalizing b with
  | nil =>
    cases b with
    | nil => rfl
    | cons d ds => simp [charListLt] at hab
  | cons c cs ih =>
    cases b with
    | nil => simp [charListLt] at hba
    | cons d ds =>
      simp only [charListLt] at hab hba
      rcases lt_trichotomy c d with hcd | hcd | hcd
      · simp [hcd] at hab
      · subst hcd
        simp only [lt_irrefl, if_false] at hab hba
        rw [ih hab hba]
      · simp [hcd] at hba

theorem strLt_irrefl (a : String) : strLt a a = false := charListLt_irrefl _

theorem strLt_asymm {a b : String} (h : strLt a b = true) : strLt b a = false :=
  charListLt_asymm h

theorem strLt_trans {a b c : String} (hab : strLt a b = true) (hbc : strLt b c = true) :
    strLt a c = true := charListLt_trans hab hbc

theorem strLt_eq_of_not_lt {a b : String} (hab : strLt a b = false) (hba : strLt b a = false) :
    a = b := by
  have h := charListLt_eq_of_not_lt hab hba
  cases a; cases b; simp_all

theorem insertSorted_perm {α : Type} (le : α → α → Bool) (a : α) (l : List α) :
    List.Perm (insertSorted le a l) (a :: l) := by
  induction l with
  | nil => simp [insertSorted]
  | cons b t ih =>
    simp only [insertSorted]
    by_cases h : le a b = true
    · simp [h]
    · simp only [h, if_false]
      exact ((ih.cons b).trans (List.Perm.swap a b t))

theorem sortBy_perm {α : Type} (le : α → α → Bool) (l : List α) :
    List.Perm (sortBy le l) l := by
  induction l with
  | nil => simp [sortBy]
  | cons a t ih => exact (insertSorted_perm le a (sortBy le t)).trans (ih.cons a)

theorem mem_sortBy {α : Type} {le : α → α → Bool} {x : α} {l : List α} :
    x ∈ sortBy le l ↔ x ∈ l := (sortBy_perm le l).mem_iff

theorem insertSorted_pairwise {α : Type} {le : α → α → Bool}
    (htrans : ∀ a b c, le a b = true → le b c = true → le a c = true)
    (htot : ∀ a b, le a b = true ∨ le b a = true) {a : α} {l : List α}
    (hl : l.Pairwise (fun x y => le x y = true)) :
    (insertSorted le a l).Pairwise (fun x y => le x y = true) := by
  induction l with
  | nil => simp [insertSorted]
  | cons b t ih =>
    rcases List.pairwise_cons.1 hl with ⟨hb, ht⟩
    simp only [insertSorted]
    by_cases h : le a b = true
    · rw [if_pos h]
      refine List.pairwise_cons.2 ⟨?_, hl⟩
      intro x hx
      rcases List.mem_cons.1 hx with rfl | hx
      · exact h
      · exact htrans a b x h (hb x hx)
    · rw [if_neg h]
      refine List.pairwise_cons.2 ⟨?_, ih ht⟩
      intro x hx
      have hmem := (insertSorted_perm le a t).mem_iff.1 hx
      rcases List.mem_cons.1 hmem with rfl | hmem
      · rcases htot x b with hab | hba
        · exact absurd hab h
        · exact hba
      · exact hb x hmem

theorem sortBy_pairwise {α : Type} {le : α → α → Bool}
    (htrans : ∀ a b c, le a b = true → le b c = true → le a c = true)
    (htot : ∀ a b, le a b = true ∨ le b a = true) (l : List α) :
    (sortBy le l).Pairwise (fun x y => le x y = true) := by
  induction l with
  | nil => simp [sortBy]
  | cons a t ih => exact insertSorted_pairwise htrans htot ih

theorem pickMaxBy_mem {α : Type} {f : α → Int} {l : List α} {x : α}
    (h : pickMaxBy f l = some x) : x ∈ l := by
  induction l with
  | nil => simp [pickMaxBy] at h
  | cons a t ih =>
    rw [pickMaxBy] at h
    split at h
    · simp only [Option.some.injEq] at h
      simp [h]
    · rename_i m hm
      split at h
      · simp only [Option.some.injEq] at h
        simp [h]
      · simp only [Option.some.injEq] at h
        subst h
        exact List.mem_cons_of_mem a (ih hm)

theorem pickMinBy_mem {α : Type} {f : α → Int} {l : List α} {x : α}
    (h : pickMinBy f l = some x) : x ∈ l := by
  induction l with
  | nil => simp [pickMinBy] at h
  | cons a t ih =>
    rw [pickMinBy] at h
    split at h
    · simp only [Option.some.injEq] at h
      simp [h]
    · rename_i m hm
      split at h
      · simp only [Option.some.injEq] at h
        simp [h]
      · simp only [Option.some.injEq] at h
        subst h
        exact List.mem_cons_of_mem a (ih hm)

theorem pickMinBy_eq_none {α : Type} {f : α → Int} {l : List α} :
    pickMinBy f l = none ↔ l = [] := by
  cases l with
  | nil => simp [pickMinBy]
  | cons a t =>
    rw [pickMinBy]
    constructor
    · intro h
      split at h
      · simp at h
      · split at h <;> simp at h
    · intro h
      simp at h

theorem trapSum_append_dup (l : List (ℚ × ℚ)) (p : ℚ × ℚ) :
    trapSum (l ++ [p, p]) = trapSum (l ++ [p]) := by
  induction l with
  | nil => simp [trapSum]
  | cons a l ih =>
    cases l with
    | nil => simp [trapSum] at ih ⊢
    | cons b l₂ => simpa [trapSum] using ih

/-! ## The total order underlying `find_billing_events` -/

theorem eventAfter_iff {a e : BillingEvent} :
    eventAfter a e = true ↔
      a.event_start < e.event_start ∨
      (a.event_start = e.event_start ∧ a.event_end < e.event_end) ∨
      (a.event_start = e.event_start ∧ a.event_end = e.event_end ∧
        strLt a.workspace e.workspace = true) ∨
      (a.event_start = e.event_start ∧ a.event_end = e.event_end ∧
        a.workspace = e.workspace ∧ a.uuid < e.uuid) := by
  simp [eventAfter, and_assoc, or_assoc]

theorem eventAfter_irrefl (a : BillingEvent) : eventAfter a a = false := by
  simp [eventAfter, strLt_irrefl]

theorem eventAfter_asymm {a b : BillingEvent} (h : eventAfter a b = true) :
    eventAfter b a = false := by
  rw [Bool.eq_false_iff]
  intro hba
  rw [eventAfter_iff] at h hba
  rcases h with h | ⟨h1, h2⟩ | ⟨h1, h2, h3⟩ | ⟨h1, h2, h3, h4⟩ <;>
    rcases hba with g | ⟨g1, g2⟩ | ⟨g1, g2, g3⟩ | ⟨g1, g2, g3, g4⟩ <;>
    first
      | omega
      | (have hs := strLt_asymm h3; simp_all; done)
      | (simp_all [strLt_irrefl]; done)

theorem eventAfter_trans {a b c : BillingEvent} (hab : eventAfter a b = true)
    (hbc : eventAfter b c = true) : eventAfter a c = true := by
  rw [eventAfter_iff] at hab hbc ⊢
  rcases hab with h | ⟨h1, h2⟩ | ⟨h1, h2, h3⟩ | ⟨h1, h2, h3, h4⟩ <;>
    rcases hbc with g | ⟨g1, g2⟩ | ⟨g1, g2, g3⟩ | ⟨g1, g2, g3, g4⟩
  · exact Or.inl (by omega)
  · exact Or.inl (by omega)
  · exact Or.inl (by omega)
  · exact Or.inl (by omega)
  · exact Or.inl (by omega)
  · exact Or.inr (Or.inl ⟨by omega, by omega⟩)
  · exact Or.inr (Or.inl ⟨by omega, by omega⟩)
  · exact Or.inr (Or.inl ⟨by omega, by omega⟩)
  · exact Or.inl (by omega)
  · exact Or.inr (Or.inl ⟨by omega, by omega⟩)
  · exact Or.inr (Or.inr (Or.inl ⟨by omega, by omega, strLt_trans h3 g3⟩))
  · exact Or.inr (Or.inr (Or.inl ⟨by omega, by omega, by rw [← g3]; exact h3⟩))
  · exact Or.inl (by omega)
  · exact Or.inr (Or.inl ⟨by omega, by omega⟩)
  · exact Or.inr (Or.inr (Or.inl ⟨by omega, by omega, by rw [h3]; exact g3⟩))
  · exact Or.inr (Or.inr (Or.inr ⟨by omega, by omega, by rw [h3, g3], by omega⟩))

theorem eventKey_eq_of_not_after {a b : BillingEvent} (hab : eventAfter a b = false)
    (hba : eventAfter b a = false) : eventKey a = eventKey b := by
  rw [Bool.eq_false_iff] at hab hba
  rw [Ne, eventAfter_iff] at hab hba
  rcases lt_trichotomy a.event_start b.event_start with h1 | h1 | h1
  · exact absurd (Or.inl h1) hab
  · rcases lt_trichotomy a.event_end b.event_end with h2 | h2 | h2
    · exact absurd (Or.inr (Or.inl ⟨h1, h2⟩)) hab
    · cases hw : strLt a.workspace b.workspace with
      | true => exact absurd (Or.inr (Or.inr (Or.inl ⟨h1, h2, hw⟩))) hab
      | false =>
        cases hw2 : strLt b.workspace a.workspace with
        | true => exact absurd (Or.inr (Or.inr (Or.inl ⟨h1.symm, h2.symm, hw2⟩))) hba
        | false =>
          have h3 := strLt_eq_of_not_lt hw hw2
          rcases lt_trichotomy a.uuid b.uuid with h4 | h4 | h4
          · exact absurd (Or.inr (Or.inr (Or.inr ⟨h1, h2, h3, h4⟩))) hab
          · simp [eventKey, h1, h2, h3, h4]
          · exact absurd (Or.inr (Or.inr (Or.inr ⟨h1.symm, h2.symm, h3.symm, h4⟩))) hba
    · exact absurd (Or.inr (Or.inl ⟨h1.symm, h2⟩)) hba
  · exact absurd (Or.inl h1) hba

theorem eventAfter_trichotomy (a b : BillingEvent) :
    eventAfter a b = true ∨ eventAfter b a = true ∨ eventKey a = eventKey b := by
  cases hab : eventAfter a b with
  | true => exact Or.inl rfl
  | false =>
    cases hba : eventAfter b a with
    | true => exact Or.inr (Or.inl rfl)
    | false => exact Or.inr (Or.inr (eventKey_eq_of_not_after hab hba))

theorem eventAfter_key_congr {a b a₂ b₂ : BillingEvent} (ha : eventKey a = eventKey a₂)
    (hb : eventKey b = eventKey b₂) : eventAfter a b = eventAfter a₂ b₂ := by
  simp only [eventKey, Prod.mk.injEq] at ha hb
  obtain ⟨ha1, ha2, ha3, ha4⟩ := ha
  obtain ⟨hb1, hb2, hb3, hb4⟩ := hb
  simp [eventAfter, ha1, ha2, ha3, ha4, hb1, hb2, hb3, hb4]

instance instEventAfterAntisymm : IsAntisymm BillingEvent (fun a b => eventAfter a b = true) :=
  ⟨fun a b h1 h2 => absurd h2 (by simp [eventAfter_asymm h1])⟩

theorem eventLE_trans : ∀ a b c : BillingEvent,
    eventLE a b = true → eventLE b c = true → eventLE a c = true := by
  intro a b c hab hbc
  simp only [eventLE, Bool.not_eq_true', Bool.not_eq_true] at hab hbc ⊢
  rw [Bool.eq_false_iff]
  intro hca
  rcases eventAfter_trichotomy b c with h | h | h
  · exact absurd (eventAfter_trans h hca) (by simp [hab])
  · exact absurd h (by simp [hbc])
  · have : eventAfter c a = eventAfter b a := eventAfter_key_congr h.symm rfl
    rw [this, hab] at hca
    exact Bool.false_ne_true hca

theorem eventLE_total : ∀ a b : BillingEvent, eventLE a b = true ∨ eventLE b a = true := by
  intro a b
  simp only [eventLE, Bool.not_eq_true', Bool.not_eq_true]
  cases hba : eventAfter b a with
  | false => exact Or.inl rfl
  | true => exact Or.inr (eventAfter_asymm hba)

theorem pairwise_uuid_ne {l : List BillingEvent}
    (h : (l.map (fun e => e.uuid)).Nodup) : l.Pairwise (fun x y => x.uuid ≠ y.uuid) := by
  rw [List.Nodup, List.pairwise_map] at h
  exact h

theorem pairwise_after_of_le_nodup {l : List BillingEvent}
    (hle : l.Pairwise (fun x y => eventLE x y = true))
    (hud : l.Pairwise (fun x y => x.uuid ≠ y.uuid)) :
    l.Pairwise (fun x y => eventAfter x y = true) := by
  refine (hle.and hud).imp ?_
  rintro a b ⟨h1, h2⟩
  simp only [eventLE, Bool.not_eq_true'] at h1
  rcases eventAfter_trichotomy a b with h | h | h
  · exact h
  · exact absurd h (by simp [h1])
  · exfalso
    apply h2
    simpa [eventKey, Prod.mk.injEq] using congrArg (fun p => p.2.2.2) h

/-- The output of `sortBy eventLE` on a list of events with pairwise-distinct
UUIDs is strictly sorted in the paging order. -/
theorem sortBy_strict {l : List BillingEvent}
    (hnd : (l.map (fun e => e.uuid)).Nodup) :
    (sortBy eventLE l).Pairwise (fun x y => eventAfter x y = true) := by
  refine pairwise_after_of_le_nodup (sortBy_pairwise eventLE_trans eventLE_total l) ?_
  exact ((sortBy_perm eventLE l).pairwise_iff (fun h => Ne.symm h)).2 (pairwise_uuid_ne hnd)

theorem nodup_uuid_sublist {l₁ l₂ : List BillingEvent} (h : l₁.Sublist l₂)
    (hnd : (l₂.map (fun e => e.uuid)).Nodup) : (l₁.map (fun e => e.uuid)).Nodup :=
  List.Nodup.sublist (h.map (fun e => e.uuid)) hnd

/-- A primary-key lookup (`session.get`) on a table with unique UUIDs finds
exactly the row whose UUID was given. -/
theorem find_uuid_eq {l : List BillingEvent} {x : BillingEvent}
    (hnd : (l.map (fun e => e.uuid)).Nodup) (hx : x ∈ l) :
    l.find? (fun e => e.uuid == x.uuid) = some x := by
  induction l with
  | nil => cases hx
  | cons a t ih =>
    have hnd' : (a.uuid :: t.map (fun e => e.uuid)).Nodup := by simpa using hnd
    rcases List.nodup_cons.1 hnd' with ⟨hna, hnt⟩
    rcases List.mem_cons.1 hx with rfl | hx
    · exact List.find?_cons_of_pos t (by simp)
    · by_cases ha : a.uuid = x.uuid
      · exfalso
        apply hna
        rw [ha]
        exact List.mem_map_of_mem (fun e => e.uuid) hx
      · rw [List.find?_cons_of_neg t (by simpa using ha)]
        exact ih hnt hx

/-- On a strictly sorted list, filtering to the rows strictly after the `i`-th
element yields exactly the suffix starting at position `i + 1`. -/
theorem sorted_filter_after {s : List BillingEvent}
    (hs : s.Pairwise (fun x y => eventAfter x y = true)) :
    ∀ i (hi : i < s.length), s.filter (eventAfter (s.get ⟨i, hi⟩)) = s.drop (i + 1) := by
  induction s with
  | nil => intro i hi; simp at hi
  | cons a t ih =>
    rcases List.pairwise_cons.1 hs with ⟨ha, ht⟩
    intro i hi
    cases i with
    | zero =>
      show (a :: t).filter (eventAfter a) = t
      rw [List.filter_cons, if_neg (by simp [eventAfter_irrefl])]
      exact List.filter_eq_self.2 (fun x hx => ha x hx)
    | succ n =>
      have hn : n < t.length := by simpa using hi
      have hget : (a :: t).get ⟨n + 1, hi⟩ = t.get ⟨n, hn⟩ := List.get_cons_succ
      rw [hget]
      have hx : eventAfter a (t.get ⟨n, hn⟩) = true := ha _ (List.get_mem t n hn)
      rw [List.filter_cons, if_neg (by simpa using eventAfter_asymm hx)]
      rw [ih ht n hn]
      rfl

/-- Sorting commutes with filtering when UUIDs are unique: both sides are the
unique strictly-sorted arrangement of the filtered rows. -/
theorem sortBy_filter_comm {l : List BillingEvent} (p : BillingEvent → Bool)
    (hnd : (l.map (fun e => e.uuid)).Nodup) :
    sortBy eventLE (l.filter p) = (sortBy eventLE l).filter p := by
  have hnd₂ : ((l.filter p).map (fun e => e.uuid)).Nodup :=
    nodup_uuid_sublist (List.filter_sublist l) hnd
  have hperm : List.Perm (sortBy eventLE (l.filter p)) ((sortBy eventLE l).filter p) :=
    (sortBy_perm _ _).trans ((List.Perm.filter p (sortBy_perm eventLE l)).symm)
  exact List.eq_of_perm_of_sorted hperm (sortBy_strict hnd₂)
    (List.Pairwise.filter p (sortBy_strict hnd))

theorem sortedEvents_nodup_uuid {db : EventDB} (w : Option String) (acc : Option Nat)
    (s e : Option Int) (hnd : (db.events.map (fun ev => ev.uuid)).Nodup) :
    ((sortedEvents db w acc s e).map (fun ev => ev.uuid)).Nodup := by
  have h₁ : ((db.events.filter (matchesQuery db w acc s e)).map (fun ev => ev.uuid)).Nodup :=
    nodup_uuid_sublist (List.filter_sublist _) hnd
  have hp := (sortBy_perm eventLE (db.events.filter (matchesQuery db w acc s e))).map
    (fun ev => ev.uuid)
  exact hp.nodup_iff.2 h₁

theorem sortedEvents_strict {db : EventDB} (w : Option String) (acc : Option Nat)
    (s e : Option Int) (hnd : (db.events.map (fun ev => ev.uuid)).Nodup) :
    (sortedEvents db w acc s e).Pairwise (fun x y => eventAfter x y = true) :=
  sortBy_strict (nodup_uuid_sublist (List.filter_sublist _) hnd)

/-- Unfolding of `find_billing_events` with no `after` cursor. -/
theorem find_billing_events_after_none (db : EventDB) (w : Option String) (acc : Option Nat)
    (s e : Option Int) (limit : Nat) :
    find_billing_events db w acc s e none limit = (sortedEvents db w acc s e).take limit := rfl

/-- Unfolding of `find_billing_events` when the `after` UUID resolves. -/
theorem find_billing_events_after_some (db : EventDB) (w : Option String) (acc : Option Nat)
    (s e : Option Int) (u : Nat) (limit : Nat) {f : BillingEvent}
    (hfind : db.events.find? (fun ev => ev.uuid == u) = some f) :
    find_billing_events db w acc s e (some u) limit
      = (sortBy eventLE ((db.events.filter (matchesQuery db w acc s e)).filter
          (eventAfter f))).take limit := by
  show (sortBy eventLE
    (match db.events.find? (fun ev => ev.uuid == u) with
      | none => db.events.filter (matchesQuery db w acc s e)
      | some after_be =>
        (db.events.filter (matchesQuery db w acc s e)).filter (eventAfter after_be))).take limit
    = _
  rw [hfind]

/-- Unfolding of `find_billing_events` when the `after` UUID resolves to no
stored event: the cursor is ignored. -/
theorem find_billing_events_after_miss (db : EventDB) (w : Option String) (acc : Option Nat)
    (s e : Option Int) (u : Nat) (limit : Nat)
    (hfind : db.events.find? (fun ev => ev.uuid == u) = none) :
    find_billing_events db w acc s e (some u) limit
      = find_billing_events db w acc s e none limit := by
  show (sortBy eventLE
    (match db.events.find? (fun ev => ev.uuid == u) with
      | none => db.events.filter (matchesQuery db w acc s e)
      | some after_be =>
        (db.events.filter (matchesQuery db w acc s e)).filter (eventAfter after_be))).take limit
    = _
  rw [hfind]
  rfl

/-- Shape of a `find_billing_events` page whose `after` cursor is the `i`-th
element of the full sorted result: the next `limit` rows of the suffix. -/
theorem find_after_shape (db : EventDB) (w : Option String) (acc : Option Nat)
    (s e : Option Int) (limit : Nat)
    (hnd : (db.events.map (fun ev => ev.uuid)).Nodup)
    {i : Nat} (hi : i < (sortedEvents db w acc s e).length) :
    find_billing_events db w acc s e
        (some ((sortedEvents db w acc s e).get ⟨i, hi⟩).uuid) limit
      = ((sortedEvents db w acc s e).drop (i + 1)).take limit := by
  have hfmem : (sortedEvents db w acc s e).get ⟨i, hi⟩ ∈ db.events :=
    List.mem_of_mem_filter
      ((sortBy_perm eventLE _).mem_iff.1 (List.get_mem _ i hi))
  rw [find_billing_events_after_some db w acc s e _ limit (find_uuid_eq hnd hfmem)]
  rw [sortBy_filter_comm _ (nodup_uuid_sublist (List.filter_sublist _) hnd)]
  rw [show sortBy eventLE (db.events.filter (matchesQuery db w acc s e)) =
    sortedEvents db w acc s e from rfl]
  rw [sorted_filter_after (sortedEvents_strict w acc s e hnd) i hi]

/-- Paging invariant: starting from position `k` of the sorted result (cursor
on element `k − 1`, or no cursor at `k = 0`), repeated paging returns exactly
the suffix from `k`. -/
theorem pageThrough_suffix (db : EventDB) (w : Option String) (acc : Option Nat)
    (s e : Option Int) (limit : Nat) (hlim : 1 ≤ limit)
    (hnd : (db.events.map (fun ev => ev.uuid)).Nodup) :
    ∀ fuel k, k ≤ (sortedEvents db w acc s e).length →
      (sortedEvents db w acc s e).length - k + 1 ≤ fuel →
      ∀ after_ : Option Nat,
      ((k = 0 ∧ after_ = none) ∨
        (∃ hk2 : k - 1 < (sortedEvents db w acc s e).length, 1 ≤ k ∧
          after_ = some ((sortedEvents db w acc s e).get ⟨k - 1, hk2⟩).uuid)) →
      pageThrough db w acc s e limit fuel after_ = (sortedEvents db w acc s e).drop k := by
  intro fuel
  induction fuel with
  | zero =>
    intro k hk hfuel after_ hafter
    omega
  | succ fuel ih =>
    intro k hk hfuel after_ hafter
    have hpage : find_billing_events db w acc s e after_ limit
        = ((sortedEvents db w acc s e).drop k).take limit := by
      rcases hafter with ⟨rfl, rfl⟩ | ⟨hk2, hk1, rfl⟩
      · rw [find_billing_events_after_none]
        simp
      · rw [find_after_shape db w acc s e limit hnd hk2]
        congr 2
        omega
    rw [pageThrough, hpage]
    by_cases hdk : (sortedEvents db w acc s e).drop k = []
    · rw [hdk]
      simp
    · have hklt : k < (sortedEvents db w acc s e).length := by
        by_contra hcon
        exact hdk (List.drop_eq_nil_of_le (by omega))
      have hdlen : ((sortedEvents db w acc s e).drop k).length
          = (sortedEvents db w acc s e).length - k := List.length_drop k _
      have hdpos : 0 < ((sortedEvents db w acc s e).drop k).length :=
        List.length_pos.2 hdk
      have hm1 : 1 ≤ min limit ((sortedEvents db w acc s e).drop k).length :=
        le_min hlim hdpos
      have hjlt : k + min limit ((sortedEvents db w acc s e).drop k).length - 1
          < (sortedEvents db w acc s e).length := by
        have := min_le_right limit ((sortedEvents db w acc s e).drop k).length
        omega
      have hlast : (((sortedEvents db w acc s e).drop k).take limit).getLast?
          = some ((sortedEvents db w acc s e).get
              ⟨k + min limit ((sortedEvents db w acc s e).drop k).length - 1, hjlt⟩) := by
        rw [List.getLast?_eq_getElem?, List.length_take]
        rw [List.getElem?_take]
        rw [if_pos (by omega)]
        rw [List.getElem?_drop]
        rw [show k + (limit ⊓ ((sortedEvents db w acc s e).drop k).length - 1)
          = k + min limit ((sortedEvents db w acc s e).drop k).length - 1 from by omega]
        rw [List.getElem?_eq_getElem hjlt]
        rfl
      rw [hlast]
      have hrec := ih (k + min limit ((sortedEvents db w acc s e).drop k).length)
        (by have := min_le_right limit ((sortedEvents db w acc s e).drop k).length; omega)
        (by omega)
        (some ((sortedEvents db w acc s e).get
          ⟨k + min limit ((sortedEvents db w acc s e).drop k).length - 1, hjlt⟩).uuid)
        (Or.inr ⟨hjlt, by omega, rfl⟩)
      show ((sortedEvents db w acc s e).drop k).take limit
          ++ pageThrough db w acc s e limit fuel _ = _
      rw [hrec]
      rw [show (sortedEvents db w acc s e).drop
          (k + min limit ((sortedEvents db w acc s e).drop k).length)
        = ((sortedEvents db w acc s e).drop k).drop
            (min limit ((sortedEvents db w acc s e).drop k).length) from
        (List.drop_drop _ _ _).symm]
      rcases le_total limit ((sortedEvents db w acc s e).drop k).length with hle | hle
      · rw [min_eq_left hle]
        exact List.take_append_drop limit _
      · rw [min_eq_right hle]
        rw [List.take_of_length_le hle, List.drop_eq_nil_of_le le_rfl]
        simp

theorem find_billing_events_pairwise (db : EventDB) (w : Option String) (acc : Option Nat)
    (s e : Option Int) (after : Option Nat) (limit : Nat)
    (hnd : (db.events.map (fun ev => ev.uuid)).Nodup) :
    (find_billing_events db w acc s e after limit).Pairwise
      (fun x y => eventAfter x y = true) := by
  have key : ∀ l : List BillingEvent, l.Sublist db.events →
      ((sortBy eventLE l).take limit).Pairwise (fun x y => eventAfter x y = true) := by
    intro l hl
    exact List.Pairwise.sublist (List.take_sublist _ _)
      (sortBy_strict (nodup_uuid_sublist hl hnd))
  cases after with
  | none => exact key _ (List.filter_sublist _)
  | some u =>
    cases hf : db.events.find? (fun ev => ev.uuid == u) with
    | none =>
      rw [find_billing_events_after_miss db w acc s e u limit hf]
      exact key _ (List.filter_sublist _)
    | some f =>
      rw [find_billing_events_after_some db w acc s e u limit hf]
      exact key _ ((List.filter_sublist _).trans (List.filter_sublist _))

theorem sortedEvents_length_le (db : EventDB) (w : Option String) (acc : Option Nat)
    (s e : Option Int) : (sortedEvents db w acc s e).length ≤ db.events.length := by
  show (sortBy eventLE (db.events.filter (matchesQuery db w acc s e))).length ≤ _
  rw [(sortBy_perm eventLE _).length_eq]
  exact List.length_filter_le _ _

/-- C4: `find_billing_events` orders results by the total order
`(event_start, event_end, workspace, uuid)`; when `after = U` is supplied and
an event with UUID `U` exists, exactly the matching rows strictly greater than
`U`'s tuple in lexicographic order are eligible; when no event with UUID `U`
exists, `after` has no effect; and paging any dataset with successive
`after = last.uuid` yields every matching row exactly once, in the total
order. -/
theorem c4_find_events_order_after_paging (db : EventDB) (w : Option String) (acc : Option Nat)
    (s e : Option Int) (u : Nat) (limit : Nat)
    (hnd : (db.events.map (fun ev => ev.uuid)).Nodup) (hlim : 1 ≤ limit) :
    (∀ after : Option Nat,
      (find_billing_events db w acc s e after limit).Pairwise
        (fun x y => eventAfter x y = true)) ∧
    (∀ f ∈ db.events, f.uuid = u →
      ∀ x, x ∈ find_billing_events db w acc s e (some u) db.events.length ↔
        (x ∈ db.events ∧ matchesQuery db w acc s e x = true ∧ eventAfter f x = true)) ∧
    ((∀ ev ∈ db.events, ev.uuid ≠ u) →
      find_billing_events db w acc s e (some u) limit
        = find_billing_events db w acc s e none limit) ∧
    (pageThrough db w acc s e limit (db.events.length + 1) none = sortedEvents db w acc s e) ∧
    List.Perm (pageThrough db w acc s e limit (db.events.length + 1) none)
      (db.events.filter (matchesQuery db w acc s e)) := by
  have hpage : pageThrough db w acc s e limit (db.events.length + 1) none
      = sortedEvents db w acc s e := by
    have := pageThrough_suffix db w acc s e limit hlim hnd (db.events.length + 1) 0
      (Nat.zero_le _)
      (by have := sortedEvents_length_le db w acc s e; omega)
      none (Or.inl ⟨rfl, rfl⟩)
    simpa using this
  refine ⟨fun after => find_billing_events_pairwise db w acc s e after limit hnd, ?_, ?_,
    hpage, ?_⟩
  · intro f hf hfu x
    have hfind : db.events.find? (fun ev => ev.uuid == u) = some f :=
      hfu ▸ find_uuid_eq hnd hf
    rw [find_billing_events_after_some db w acc s e u db.events.length hfind]
    have hlen : (sortBy eventLE ((db.events.filter (matchesQuery db w acc s e)).filter
        (eventAfter f))).length ≤ db.events.length := by
      rw [(sortBy_perm eventLE _).length_eq]
      exact le_trans (List.length_filter_le _ _) (List.length_filter_le _ _)
    rw [List.take_of_length_le hlen]
    rw [mem_sortBy, List.mem_filter, List.mem_filter]
    tauto
  · intro hmiss
    refine find_billing_events_after_miss db w acc s e u limit ?_
    rw [List.find?_eq_none]
    intro a ha
    simpa using hmiss a ha
  · rw [hpage]
    exact sortBy_perm eventLE _

/-- Witness for `c4_find_events_order_after_paging` on concrete data: three
events with distinct UUIDs, page size 2. -/
theorem c4_find_events_order_after_paging_witness :
    ((dbPagingExample.events.map (fun ev => ev.uuid)).Nodup ∧ 1 ≤ 2) ∧
    pageThrough dbPagingExample none none none none 2 4 none
      = sortedEvents dbPagingExample none none none none :=
  ⟨⟨by decide, by decide⟩,
    (c4_find_events_order_after_paging dbPagingExample none none none none 0 2
      (by decide) (by decide)).2.2.2.1⟩


/-! ## The estimator: `calculate_consumption_for_interval` (C2) -/

theorem headD_congr {α : Type} {l : List α} (h : l ≠ []) (a b : α) :
    l.headD a = l.headD b := by
  cases l with
  | nil => exact absurd rfl h
  | cons x t => rfl

theorem lastTwo_append_pair {α : Type} (l : List α) (a b : α) :
    lastTwo (l ++ [a, b]) = some (a, b) := by
  induction l with
  | nil => rfl
  | cons x l ih =>
    cases l with
    | nil => rfl
    | cons y l2 =>
      rw [show (x :: y :: l2) ++ [a, b] = x :: ((y :: l2) ++ [a, b]) from rfl]
      rw [show x :: ((y :: l2) ++ [a, b]) = x :: y :: (l2 ++ [a, b]) from rfl]
      rw [lastTwo]
      rw [show y :: (l2 ++ [a, b]) = (y :: l2) ++ [a, b] from rfl, ih]

theorem getLastD_singleton {α : Type} (a d : α) : [a].getLastD d = a := rfl

theorem interpolate_at_end {q p : RateSample} {end_ : Int} (hq : q.sample_time = end_)
    (hp : p.sample_time < end_) : interpolate end_ p q = q.rate := by
  unfold interpolate
  rw [hq]
  have hne : ((end_ - p.sample_time : Int) : ℚ) ≠ 0 := by
    rw [Int.cast_ne_zero]
    omega
  rw [div_self hne]
  ring

theorem consumption_from_samples_cons (s0 : RateSample) (tail : List RateSample)
    {sm2 sm1 : RateSample} (hlt : lastTwo (s0 :: tail) = some (sm2, sm1)) (start end_ : Int) :
    consumption_from_samples (s0 :: tail) start end_
      = some (trapSum (
          [if start < s0.sample_time then (((seconds_after s0 start : Int) : ℚ), 0)
           else (0, interpolate start s0 (tail.headD s0))]
          ++ ((s0 :: tail).filter (fun s => sample_after s start && ! sample_after s end_)).map
              (fun s => (((seconds_after s start : Int) : ℚ), s.rate))
          ++ [if sm1.sample_time < end_ then (((seconds_after sm1 start : Int) : ℚ), 0)
              else ((((end_ - start) % 86400 : Int) : ℚ), interpolate end_ sm2 sm1)])) := by
  unfold consumption_from_samples
  rw [hlt]

theorem consumption_from_samples_eq_spec_core
    (predOpt succOpt : Option RateSample) (mids : List RateSample) (start end_ : Int)
    (hwin : 0 < end_ - start) (hspan : end_ - start < 86400)
    (hpred : ∀ p, predOpt = some p → p.sample_time ≤ start)
    (hsucc : ∀ q, succOpt = some q → end_ ≤ q.sample_time)
    (hmids : ∀ m ∈ mids, start < m.sample_time ∧ m.sample_time < end_)
    (h2 : 2 ≤ (predOpt.toList ++ mids ++ succOpt.toList).length) :
    consumption_from_samples (predOpt.toList ++ mids ++ succOpt.toList) start end_
      = spec_core predOpt mids succOpt start end_ := by
  have hmap : mids.map (fun s => (((seconds_after s start : Int) : ℚ), s.rate))
      = mids.map (fun s => (((s.sample_time - start : Int) : ℚ), s.rate)) := by
    apply List.map_congr_left
    intro m hm
    have h := hmids m hm
    have hsec : seconds_after m start = m.sample_time - start := by
      unfold seconds_after
      exact Int.emod_eq_of_lt (by omega) (by omega)
    rw [hsec]
  have hfilterMids :
      mids.filter (fun s => sample_after s start && ! sample_after s end_) = mids := by
    rw [List.filter_eq_self]
    intro m hm
    have h := hmids m hm
    simp [sample_after]
    omega
  unfold spec_core
  rw [if_neg (by omega)]
  cases predOpt with
  | some p =>
    have hp : p.sample_time ≤ start := hpred p rfl
    cases succOpt with
    | some q =>
      have hq : end_ ≤ q.sample_time := hsucc q rfl
      rcases List.eq_nil_or_concat mids with rfl | ⟨ms0, mlast, rfl⟩
      · -- mids = [], rs = [p, q]
        simp only [Option.toList_some, List.nil_append, List.append_nil,
          List.singleton_append, List.map_nil, List.headD_cons]
        rw [consumption_from_samples_cons p [q] (show lastTwo [p, q] = some (p, q) from rfl)]
        simp only [List.headD_cons, getLastD_singleton]
        rw [if_neg (by omega), if_neg (by omega)]
        have hcp : (sample_after p start && ! sample_after p end_) = false := by
          simp [sample_after]
          omega
        have hD : (end_ - start) % 86400 = end_ - start :=
          Int.emod_eq_of_lt (by omega) (by omega)
        rcases eq_or_lt_of_le hq with hqe | hqgt
        · have hcq : (sample_after q start && ! sample_after q end_) = true := by
            simp [sample_after]
            omega
          have hsq : seconds_after q start = end_ - start := by
            unfold seconds_after
            rw [← hqe]
            exact Int.emod_eq_of_lt (by omega) (by omega)
          rw [show List.filter (fun s => sample_after s start && ! sample_after s end_) [p, q]
              = [q] from by
            rw [show ([p, q] : List RateSample) = p :: [q] from rfl, List.filter_cons,
              if_neg (by simp [hcp]), List.filter_cons, if_pos (by simp [hcq]),
              List.filter_nil]]
          rw [interpolate_at_end hqe.symm (by omega)]
          simp only [List.map_cons, List.map_nil, hsq, hD]
          rw [show ([(0, interpolate start p q)] ++ [(((end_ - start : Int) : ℚ), q.rate)]
              ++ [(((end_ - start : Int) : ℚ), q.rate)])
            = [(0, interpolate start p q)] ++ [((((end_ - start : Int) : ℚ)), q.rate),
                ((((end_ - start : Int) : ℚ)), q.rate)] from by simp]
          rw [trapSum_append_dup]
          simp
        · have hcq : (sample_after q start && ! sample_after q end_) = false := by
            simp [sample_after]
            omega
          rw [show List.filter (fun s => sample_after s start && ! sample_after s end_) [p, q]
              = [] from by
            rw [show ([p, q] : List RateSample) = p :: [q] from rfl, List.filter_cons,
              if_neg (by simp [hcp]), List.filter_cons, if_neg (by simp [hcq]),
              List.filter_nil]]
          simp only [List.map_nil, hD]
          simp
      · -- mids = ms0 ++ [mlast], rs = (p :: ms0) ++ [mlast, q]
        simp only [List.concat_eq_append] at hmids hmap hfilterMids h2 ⊢
        have hmlast : start < mlast.sample_time ∧ mlast.sample_time < end_ :=
          hmids mlast (by simp)
        rw [show (some p).toList ++ (ms0 ++ [mlast]) ++ (some q).toList
          = p :: ((ms0 ++ [mlast]) ++ [q]) from by simp]
        have hlt : lastTwo (p :: ((ms0 ++ [mlast]) ++ [q])) = some (mlast, q) := by
          rw [show p :: ((ms0 ++ [mlast]) ++ [q]) = (p :: ms0) ++ [mlast, q] from by simp]
          exact lastTwo_append_pair _ _ _
        rw [consumption_from_samples_cons p _ hlt]
        rw [if_neg (by omega), if_neg (by omega)]
        rw [headD_congr (by simp : ((ms0 ++ [mlast]) ++ [q] : List RateSample) ≠ []) p default]
        have hcp : (sample_after p start && ! sample_after p end_) = false := by
          simp [sample_after]
          omega
        have hD : (end_ - start) % 86400 = end_ - start :=
          Int.emod_eq_of_lt (by omega) (by omega)
        rw [List.filter_cons, if_neg (by simp [hcp]), List.filter_append, hfilterMids]
        rw [show ((some p).toList ++ (ms0 ++ [mlast])).getLastD default = mlast from by
          rw [show (some p).toList ++ (ms0 ++ [mlast]) = (p :: ms0) ++ [mlast] from by simp]
          exact List.getLastD_concat _ _ _]
        rcases eq_or_lt_of_le hq with hqe | hqgt
        · have hcq : (sample_after q start && ! sample_after q end_) = true := by
            simp [sample_after]
            omega
          have hsq : seconds_after q start = end_ - start := by
            unfold seconds_after
            rw [← hqe]
            exact Int.emod_eq_of_lt (by omega) (by omega)
          rw [show List.filter (fun s => sample_after s start && ! sample_after s end_) [q]
              = [q] from by
            rw [List.filter_cons, if_pos (by simp [hcq]), List.filter_nil]]
          rw [List.map_append, hmap]
          rw [interpolate_at_end hqe.symm (by omega)]
          simp only [List.map_cons, List.map_nil, hsq, hD]
          rw [show [(0, interpolate start p (((ms0 ++ [mlast]) ++ [q]).headD default))]
              ++ (List.map (fun s => (((s.sample_time - start : Int) : ℚ), s.rate)) (ms0 ++ [mlast])
                  ++ [(((end_ - start : Int) : ℚ), q.rate)])
              ++ [(((end_ - start : Int) : ℚ), q.rate)]
            = ((0, interpolate start p (((ms0 ++ [mlast]) ++ [q]).headD default))
                :: List.map (fun s => (((s.sample_time - start : Int) : ℚ), s.rate)) (ms0 ++ [mlast]))
              ++ [(((end_ - start : Int) : ℚ), q.rate), (((end_ - start : Int) : ℚ), q.rate)]
            from by simp]
          rw [trapSum_append_dup]
          simp
        · have hcq : (sample_after q start && ! sample_after q end_) = false := by
            simp [sample_after]
            omega
          rw [show List.filter (fun s => sample_after s start && ! sample_after s end_) [q]
              = [] from by
            rw [List.filter_cons, if_neg (by simp [hcq]), List.filter_nil]]
          rw [List.map_append, hmap]
          simp only [List.map_nil, hD]
          simp
    | none =>
      rcases List.eq_nil_or_concat mids with rfl | ⟨ms0, mlast, rfl⟩
      · -- rs = [p]: impossible, length 1
        simp at h2
      · -- rs = p :: (ms0 ++ [mlast]), no successor
        simp only [List.concat_eq_append] at hmids hmap hfilterMids h2 ⊢
        have hmlast : start < mlast.sample_time ∧ mlast.sample_time < end_ :=
          hmids mlast (by simp)
        rw [show (some p).toList ++ (ms0 ++ [mlast]) ++ (none : Option RateSample).toList
          = p :: (ms0 ++ [mlast]) from by simp]
        have hsm : seconds_after mlast start = mlast.sample_time - start := by
          unfold seconds_after
          exact Int.emod_eq_of_lt (by omega) (by omega)
        have hcp : (sample_after p start && ! sample_after p end_) = false := by
          simp [sample_after]
          omega
        have hgl : ((ms0 ++ [mlast]).getLastD default) = mlast := List.getLastD_concat _ _ _
        rcases List.eq_nil_or_concat ms0 with rfl | ⟨ms1, m2, rfl⟩
        · have hlt : lastTwo (p :: ([] ++ [mlast])) = some (p, mlast) := rfl
          rw [consumption_from_samples_cons p _ hlt]
          rw [if_neg (by omega), if_pos (by omega)]
          rw [headD_congr (by simp : ([] ++ [mlast] : List RateSample) ≠ []) p default]
          rw [List.filter_cons, if_neg (by simp [hcp]), hfilterMids]
          simp only [hsm, hgl, Option.toList_none, List.append_nil, hmap]
          simp
        · simp only [List.concat_eq_append] at hmids hmap hfilterMids h2 hgl ⊢
          have hlt : lastTwo (p :: ((ms1 ++ [m2]) ++ [mlast])) = some (m2, mlast) := by
            rw [show p :: ((ms1 ++ [m2]) ++ [mlast]) = (p :: ms1) ++ [m2, mlast] from by simp]
            exact lastTwo_append_pair _ _ _
          rw [consumption_from_samples_cons p _ hlt]
          rw [if_neg (by omega), if_pos (by omega)]
          rw [headD_congr (by simp : ((ms1 ++ [m2]) ++ [mlast] : List RateSample) ≠ []) p default]
          rw [List.filter_cons, if_neg (by simp [hcp]), hfilterMids]
          simp only [hsm, hgl, Option.toList_none, List.append_nil, hmap]
          simp
  | none =>
    cases succOpt with
    | some q =>
      have hq : end_ ≤ q.sample_time := hsucc q rfl
      rcases List.eq_nil_or_concat mids with rfl | ⟨ms0, mlast, rfl⟩
      · -- rs = [q]: impossible
        simp at h2
      · -- rs = (ms0 ++ [mlast]) ++ [q], no predecessor
        simp only [List.concat_eq_append] at hmids hmap hfilterMids h2 ⊢
        have hmlast : start < mlast.sample_time ∧ mlast.sample_time < end_ :=
          hmids mlast (by simp)
        have hD : (end_ - start) % 86400 = end_ - start :=
          Int.emod_eq_of_lt (by omega) (by omega)
        have hgl : ((ms0 ++ [mlast]).getLastD default) = mlast := List.getLastD_concat _ _ _
        cases ms0 with
        | nil =>
          have h0 : start < mlast.sample_time ∧ mlast.sample_time < end_ := hmlast
          have hs0 : seconds_after mlast start = mlast.sample_time - start := by
            unfold seconds_after
            exact Int.emod_eq_of_lt (by omega) (by omega)
          rw [show (none : Option RateSample).toList ++ ([] ++ [mlast]) ++ (some q).toList
            = mlast :: [q] from by simp]
          have hlt : lastTwo (mlast :: [q]) = some (mlast, q) := rfl
          rw [consumption_from_samples_cons mlast _ hlt]
          rw [if_pos (by omega), if_neg (by omega)]
          rw [List.filter_cons, if_pos (by simp [sample_after]; omega)]
          rcases eq_or_lt_of_le hq with hqe | hqgt
          · have hsq : seconds_after q start = end_ - start := by
              unfold seconds_after
              rw [← hqe]
              exact Int.emod_eq_of_lt (by omega) (by omega)
            rw [show List.filter (fun s => sample_after s start && ! sample_after s end_) [q]
                = [q] from by
              rw [List.filter_cons, if_pos (by simp [sample_after]; omega), List.filter_nil]]
            rw [interpolate_at_end hqe.symm (by omega)]
            simp only [List.map_cons, List.map_nil, hsq, hD, hs0, hgl, Option.toList_none,
              List.nil_append]
            rw [show [(((mlast.sample_time - start : Int) : ℚ), (0 : ℚ))]
                ++ [(((mlast.sample_time - start : Int) : ℚ), mlast.rate),
                    (((end_ - start : Int) : ℚ), q.rate)]
                ++ [(((end_ - start : Int) : ℚ), q.rate)]
              = (((((mlast.sample_time - start : Int) : ℚ), (0 : ℚ)))
                  :: [(((mlast.sample_time - start : Int) : ℚ), mlast.rate)])
                ++ [(((end_ - start : Int) : ℚ), q.rate), (((end_ - start : Int) : ℚ), q.rate)]
              from by simp]
            rw [trapSum_append_dup]
            rw [getLastD_singleton mlast default]
            rw [interpolate_at_end hqe.symm (by omega)]
            simp
          · rw [show List.filter (fun s => sample_after s start && ! sample_after s end_) [q]
                = [] from by
              rw [List.filter_cons, if_neg (by simp [sample_after]; omega), List.filter_nil]]
            simp only [List.map_cons, List.map_nil, hD, hs0, hgl, Option.toList_none,
              List.nil_append]
            simp
        | cons m0 ms0t =>
          have hm0 : start < m0.sample_time ∧ m0.sample_time < end_ := hmids m0 (by simp)
          have hs0 : seconds_after m0 start = m0.sample_time - start := by
            unfold seconds_after
            exact Int.emod_eq_of_lt (by omega) (by omega)
          rw [show (none : Option RateSample).toList ++ ((m0 :: ms0t) ++ [mlast]) ++ (some q).toList
            = m0 :: ((ms0t ++ [mlast]) ++ [q]) from by simp]
          have hlt : lastTwo (m0 :: ((ms0t ++ [mlast]) ++ [q])) = some (mlast, q) := by
            rw [show m0 :: ((ms0t ++ [mlast]) ++ [q]) = (m0 :: ms0t) ++ [mlast, q] from by simp]
            exact lastTwo_append_pair _ _ _
          rw [consumption_from_samples_cons m0 _ hlt]
          rw [if_pos (by omega), if_neg (by omega)]
          rw [show List.filter (fun s => sample_after s start && ! sample_after s end_)
                (m0 :: ((ms0t ++ [mlast]) ++ [q]))
              = ((m0 :: ms0t) ++ [mlast]).filter
                  (fun s => sample_after s start && ! sample_after s end_)
                ++ List.filter (fun s => sample_after s start && ! sample_after s end_) [q] from by
            rw [show m0 :: ((ms0t ++ [mlast]) ++ [q]) = ((m0 :: ms0t) ++ [mlast]) ++ [q] from by
              simp]
            exact List.filter_append _ _]
          rw [hfilterMids]
          have hglc : (((m0 :: ms0t) ++ [mlast]).getLastD default) = mlast :=
            List.getLastD_concat _ _ _
          rcases eq_or_lt_of_le hq with hqe | hqgt
          · have hsq : seconds_after q start = end_ - start := by
              unfold seconds_after
              rw [← hqe]
              exact Int.emod_eq_of_lt (by omega) (by omega)
            rw [show List.filter (fun s => sample_after s start && ! sample_after s end_) [q]
                = [q] from by
              rw [List.filter_cons, if_pos (by simp [sample_after]; omega), List.filter_nil]]
            rw [List.map_append, hmap]
            rw [interpolate_at_end hqe.symm (by omega)]
            simp only [List.map_cons, List.map_nil, hsq, hD, hs0, hglc, Option.toList_none,
              List.nil_append]
            rw [show [(((m0.sample_time - start : Int) : ℚ), (0 : ℚ))]
                ++ (List.map (fun s => (((s.sample_time - start : Int) : ℚ), s.rate))
                      ((m0 :: ms0t) ++ [mlast])
                    ++ [(((end_ - start : Int) : ℚ), q.rate)])
                ++ [(((end_ - start : Int) : ℚ), q.rate)]
              = (((((m0.sample_time - start : Int) : ℚ), (0 : ℚ)))
                  :: List.map (fun s => (((s.sample_time - start : Int) : ℚ), s.rate))
                      ((m0 :: ms0t) ++ [mlast]))
                ++ [(((end_ - start : Int) : ℚ), q.rate), (((end_ - start : Int) : ℚ), q.rate)]
              from by simp]
            rw [trapSum_append_dup]
            rw [interpolate_at_end hqe.symm (by omega)]
            simp
          · rw [show List.filter (fun s => sample_after s start && ! sample_after s end_) [q]
                = [] from by
              rw [List.filter_cons, if_neg (by simp [sample_after]; omega), List.filter_nil]]
            rw [List.map_append, hmap]
            simp only [List.map_nil, hD, hs0, hglc, Option.toList_none, List.nil_append]
            simp
    | none =>
      rcases List.eq_nil_or_concat mids with rfl | ⟨ms0, mlast, rfl⟩
      · simp at h2
      · rcases List.eq_nil_or_concat ms0 with rfl | ⟨ms1, m2, rfl⟩
        · -- rs = [mlast]: impossible
          simp at h2
        · -- rs = (ms1 ++ [m2]) ++ [mlast], no predecessor, no successor
          simp only [List.concat_eq_append] at hmids hmap hfilterMids h2 ⊢
          have hmlast : start < mlast.sample_time ∧ mlast.sample_time < end_ :=
            hmids mlast (by simp)
          have hm2 : start < m2.sample_time ∧ m2.sample_time < end_ := hmids m2 (by simp)
          have hsm : seconds_after mlast start = mlast.sample_time - start := by
            unfold seconds_after
            exact Int.emod_eq_of_lt (by omega) (by omega)
          have hgl : (((ms1 ++ [m2]) ++ [mlast]).getLastD default) = mlast :=
            List.getLastD_concat _ _ _
          cases ms1 with
          | nil =>
            have hs0 : seconds_after m2 start = m2.sample_time - start := by
              unfold seconds_after
              exact Int.emod_eq_of_lt (by omega) (by omega)
            rw [show (none : Option RateSample).toList ++ (([] ++ [m2]) ++ [mlast])
                ++ (none : Option RateSample).toList = m2 :: [mlast] from by simp]
            have hlt : lastTwo (m2 :: [mlast]) = some (m2, mlast) := rfl
            rw [consumption_from_samples_cons m2 _ hlt]
            rw [if_pos (by omega), if_pos (by omega)]
            rw [show List.filter (fun s => sample_after s start && ! sample_after s end_)
                (m2 :: [mlast]) = ([] ++ [m2]) ++ [mlast] from by
              rw [show m2 :: [mlast] = ([] ++ [m2]) ++ [mlast] from by simp]
              exact hfilterMids]
            simp only [hsm, hs0, hgl, hmap, Option.toList_none, List.nil_append]
            simp [hs0, hsm]
          | cons m0 ms1t =>
            have hm0 : start < m0.sample_time ∧ m0.sample_time < end_ := hmids m0 (by simp)
            have hs0 : seconds_after m0 start = m0.sample_time - start := by
              unfold seconds_after
              exact Int.emod_eq_of_lt (by omega) (by omega)
            rw [show (none : Option RateSample).toList ++ (((m0 :: ms1t) ++ [m2]) ++ [mlast])
                ++ (none : Option RateSample).toList
              = m0 :: ((ms1t ++ [m2]) ++ [mlast]) from by simp]
            have hlt : lastTwo (m0 :: ((ms1t ++ [m2]) ++ [mlast])) = some (m2, mlast) := by
              rw [show m0 :: ((ms1t ++ [m2]) ++ [mlast]) = (m0 :: ms1t) ++ [m2, mlast] from by
                simp]
              exact lastTwo_append_pair _ _ _
            rw [consumption_from_samples_cons m0 _ hlt]
            rw [if_pos (by omega), if_pos (by omega)]
            rw [show List.filter (fun s => sample_after s start && ! sample_after s end_)
                (m0 :: ((ms1t ++ [m2]) ++ [mlast]))
              = ((m0 :: ms1t) ++ [m2]) ++ [mlast] from by
              rw [show m0 :: ((ms1t ++ [m2]) ++ [mlast])
                = (((m0 :: ms1t) ++ [m2]) ++ [mlast]) from by simp]
              exact hfilterMids]
            simp only [hsm, hs0, hgl, hmap, Option.toList_none, List.nil_append]
            simp [hs0, hsm]

/-- C2 (amended): for every window `[S, E)` shorter than 24 hours with at
least two rate samples retrieved, `calculate_consumption_for_interval` returns
the trapezoidal-rule integral of the piecewise-linear rate over the vertex
list described by the specification (start vertex interpolated at `S` between
the predecessor and the next sample when a predecessor exists, 0 at the first
sample's time otherwise; the in-window samples in time order; the symmetric
end vertex); the restriction to windows under 24 hours is forced because the
code measures offsets with `timedelta.seconds`, which discards whole days.
Scenario E3 yields 9962.5 and scenario E4 yields 375. -/
theorem c2_estimator_trapezoid (samples : List RateSample) (workspace sku : String)
    (start end_ : Int) (hwin : 0 < end_ - start) (hspan : end_ - start < 86400)
    (h2 : 2 ≤ (find_data_for_interval samples workspace sku start end_).length) :
    (calculate_consumption_for_interval samples workspace sku start end_
      = spec_consumption samples workspace sku start end_) ∧
    calculate_consumption_for_interval e3samples "workspace1" "sku" 3600 7200
      = some (19925 / 2) ∧
    calculate_consumption_for_interval e4samples "workspace1" "sku" 0 3000 = some 375 := by
  refine ⟨?_, ?_, ?_⟩
  · refine consumption_from_samples_eq_spec_core _ _ _ start end_ hwin hspan ?_ ?_ ?_ h2
    · intro p hp
      have hm := pickMaxBy_mem hp
      have hc := (List.mem_filter.1 hm).2
      simpa using hc
    · intro q hqq
      have hm := pickMinBy_mem hqq
      have hc := (List.mem_filter.1 hm).2
      simpa using hc
    · intro m hm
      have hc := (List.mem_filter.1 (mem_sortBy.1 hm)).2
      simp only [Bool.and_eq_true, decide_eq_true_eq] at hc
      exact hc
  · norm_num [calculate_consumption_for_interval, find_data_for_interval, e3samples,
      consumption_from_samples, lastTwo, seconds_after, sample_after, interpolate, trapSum,
      pickMaxBy, pickMinBy, sortBy, insertSorted, sampleTimeLE]
  · norm_num [calculate_consumption_for_interval, find_data_for_interval, e4samples,
      consumption_from_samples, lastTwo, seconds_after, sample_after, interpolate, trapSum,
      pickMaxBy, pickMinBy, sortBy, insertSorted, sampleTimeLE]

/-- Witness for `c2_estimator_trapezoid` at the E3 scenario. -/
theorem c2_estimator_trapezoid_witness :
    ((0 : Int) < 7200 - 3600 ∧ (7200 : Int) - 3600 < 86400 ∧
      2 ≤ (find_data_for_interval e3samples "workspace1" "sku" 3600 7200).length) ∧
    calculate_consumption_for_interval e3samples "workspace1" "sku" 3600 7200
      = spec_consumption e3samples "workspace1" "sku" 3600 7200 :=
  ⟨⟨by norm_num, by norm_num, by decide⟩,
    (c2_estimator_trapezoid e3samples "workspace1" "sku" 3600 7200 (by norm_num) (by norm_num)
      (by decide)).1⟩

/-- C2 counterexample: for the 25-hour window `[0, 90000)` over two rate-2
samples at its endpoints, the code computes 7200 (the `timedelta.seconds`
call reduces the 90000-second span to 3600 seconds) while the trapezoidal
integral of the claimed vertex list is 180000, so the claim as stated over
every window fails. -/
theorem c2_estimator_trapezoid_counterexample :
    calculate_consumption_for_interval c2CounterSamples "w" "s" 0 90000 = some 7200 ∧
    spec_consumption c2CounterSamples "w" "s" 0 90000 = some 180000 ∧
    some (7200 : ℚ) ≠ some (180000 : ℚ) :=
  ⟨by norm_num [calculate_consumption_for_interval, find_data_for_interval, c2CounterSamples,
      consumption_from_samples, lastTwo, seconds_after, sample_after, interpolate, trapSum,
      pickMaxBy, pickMinBy, sortBy, insertSorted, sampleTimeLE],
   by norm_num [spec_consumption, spec_core, c2CounterSamples, interpolate, trapSum,
      pickMaxBy, pickMinBy, sortBy, insertSorted, sampleTimeLE],
   by norm_num⟩


/-! ## The estimate generator: window structure (C3) -/

theorem genLoop_eq (samples : List RateSample) (w sku : String) (upto gfrom : Int) :
    genLoop samples w sku upto gfrom =
      if floor_to_hour (gfrom + 3600) ≤ upto then
        mkEstimate samples w sku gfrom (floor_to_hour (gfrom + 3600))
          :: genLoop samples w sku upto (floor_to_hour (gfrom + 3600))
      else [] := by
  rw [genLoop]
  split <;> rfl

theorem genLoop_properties (samples : List RateSample) (w sku : String) (upto gfrom : Int) :
    (∀ e0, (genLoop samples w sku upto gfrom).head? = some e0 → e0.event_start = gfrom) ∧
    (genLoop samples w sku upto gfrom).Chain' (fun a b => b.event_start = a.event_end) ∧
    (∀ e ∈ genLoop samples w sku upto gfrom,
      e.event_end = floor_to_hour (e.event_start + 3600) ∧
      e.event_end ≤ upto ∧
      e.uuid = EvUuid.v5 estimateNamespace
        (w ++ "-" ++ sku ++ "-" ++ isoformat e.event_start) ∧
      e.workspace = w ∧ e.sku = sku ∧
      e.quantity = calculate_consumption_for_interval samples w sku
        e.event_start e.event_end) ∧
    upto < floor_to_hour
      ((((genLoop samples w sku upto gfrom).getLast?).map (fun e => e.event_end)).getD gfrom
        + 3600) := by
  rw [genLoop_eq]
  by_cases h : floor_to_hour (gfrom + 3600) ≤ upto
  · rw [if_pos h]
    have IH := genLoop_properties samples w sku upto (floor_to_hour (gfrom + 3600))
    obtain ⟨iha, ihb, ihc, ihd⟩ := IH
    refine ⟨?_, ?_, ?_, ?_⟩
    · intro e0 he0
      simp only [List.head?_cons, Option.some.injEq] at he0
      rw [← he0]
      rfl
    · rw [List.chain'_cons']
      refine ⟨?_, ihb⟩
      intro b hb
      have := iha b hb
      rw [this]
      rfl
    · intro e he
      rcases List.mem_cons.1 he with rfl | he
      · exact ⟨rfl, h, rfl, rfl, rfl, rfl⟩
      · exact ihc e he
    · cases hrest : genLoop samples w sku upto (floor_to_hour (gfrom + 3600)) with
      | nil =>
        simp only [hrest, List.getLast?_singleton, Option.map_some, Option.getD_some]
        rw [hrest] at ihd
        simpa using ihd
      | cons r rs =>
        rw [show (mkEstimate samples w sku gfrom (floor_to_hour (gfrom + 3600)) :: r :: rs).getLast?
          = (r :: rs).getLast? from List.getLast?_cons_cons]
        rw [hrest] at ihd
        exact ihd
  · rw [if_neg h]
    refine ⟨?_, ?_, ?_, ?_⟩
    · intro e0 he0
      simp at he0
    · simp
    · intro e he
      simp at he
    · simp
      omega
termination_by (upto + 3600 - gfrom).toNat
decreasing_by
  have h1 : gfrom + 3600 - 3600 < floor_to_hour (gfrom + 3600) := by
    show gfrom + 3600 - 3600 < gfrom + 3600 - (gfrom + 3600) % 3600
    omega
  omega

end Accounting

namespace Accounting

/-- If every pending row has a defined quantity, flushing inserts them all as
their stored rows; a single undefined quantity violates the NOT NULL
constraint and nothing is inserted. -/
theorem flushEstimates_eq (l : List PendingEstimate) :
    flushEstimates l =
      if l.all (fun p => p.quantity.isSome) then some (l.map estOfPending) else none := by
  induction l with
  | nil => rfl
  | cons p rest ih =>
    show (match p.quantity, flushEstimates rest with
      | some _, some evs => some (estOfPending p :: evs)
      | _, _ => none) = _
    rw [ih]
    cases hq : p.quantity with
    | none =>
      by_cases hall : rest.all (fun p => p.quantity.isSome) = true <;>
        simp [hall, hq]
    | some q =>
      by_cases hall : rest.all (fun p => p.quantity.isSome) = true <;>
        simp [hall, hq]

/-- C3 (amended): for every ingested rate sample, generation runs with `upto`
equal to the sample timestamp floored to the UTC clock hour; the first
generated window begins at the `event_end` of the latest existing BillingEvent
for the pair if one exists, otherwise at the floor-to-hour of the earliest
recorded sample; each window ends at the next hour boundary
(`floor_to_hour(start + 1h)`, so the first window is shorter than one hour
when the resumption point is not hour-aligned, and all windows are exactly one
hour otherwise); when every window's computed consumption is defined the
single commit inserts, in order, abutting windows exactly while the window end
is `≤ upto`, each carrying the deterministic UUIDv5 of
`"{workspace}-{sku}-{window_start.isoformat()}"` under namespace
`67f9a35c-567c-4a30-b51d-2fc64328bd55`; and the commit raises IntegrityError,
inserting nothing, exactly when some generated window's consumption is
undefined (fewer than two samples retrieved), since `quantity` is NOT NULL. -/
theorem c3_estimate_generation (events : List EstEvent) (samples : List RateSample)
    (workspace sku : String) (upto gfrom : Int) (res : GenResult)
    (hstart : genStartingPoint events samples workspace sku = some gfrom)
    (hgen : generate_new_estimates events samples workspace sku upto = some res) :
    (∀ evs, res = GenResult.ok evs →
      (∀ e0, evs.head? = some e0 → e0.event_start = gfrom) ∧
      evs.Chain' (fun a b => b.event_start = a.event_end) ∧
      (∀ e ∈ evs, e.event_end = floor_to_hour (e.event_start + 3600) ∧ e.event_end ≤ upto ∧
        e.uuid = EvUuid.v5 estimateNamespace
          (workspace ++ "-" ++ sku ++ "-" ++ isoformat e.event_start) ∧
        e.workspace = workspace ∧ e.sku = sku ∧
        some e.quantity = calculate_consumption_for_interval samples workspace sku
          e.event_start e.event_end) ∧
      upto < floor_to_hour ((evs.getLast?.map (fun e => e.event_end)).getD gfrom + 3600)) ∧
    (res = GenResult.integrityError ↔
      ∃ p ∈ genLoop samples workspace sku upto gfrom,
        calculate_consumption_for_interval samples workspace sku
          p.event_start p.event_end = none) ∧
    (∀ (ev2 : List EstEvent) (s2 : List RateSample) (msg : RateSampleMessage),
      (process_rate_sample_payload ev2 s2 msg).2
        = generate_new_estimates ev2 ((process_rate_sample_payload ev2 s2 msg).1)
            msg.workspace msg.sku (floor_to_hour msg.sample_time)) := by
  have hres : res = match flushEstimates (genLoop samples workspace sku upto gfrom) with
      | some evs => GenResult.ok evs
      | none => GenResult.integrityError := by
    unfold generate_new_estimates at hgen
    rw [hstart, Option.map_some'] at hgen
    exact (Option.some.inj hgen).symm
  obtain ⟨ha, hb, hc, hd⟩ := genLoop_properties samples workspace sku upto gfrom
  rw [flushEstimates_eq] at hres
  by_cases hall : (genLoop samples workspace sku upto gfrom).all
      (fun p => p.quantity.isSome) = true
  · rw [if_pos hall] at hres
    refine ⟨?_, ?_, fun ev2 s2 msg => rfl⟩
    · intro evs hevs
      rw [hres] at hevs
      have hevs2 : evs = (genLoop samples workspace sku upto gfrom).map estOfPending :=
        (GenResult.ok.inj hevs).symm
      subst hevs2
      refine ⟨?_, ?_, ?_, ?_⟩
      · intro e0 he0
        rw [List.head?_map] at he0
        cases hh : (genLoop samples workspace sku upto gfrom).head? with
        | none => rw [hh] at he0; simp at he0
        | some p0 =>
          rw [hh] at he0
          simp only [Option.map_some', Option.some.injEq] at he0
          rw [← he0]
          exact ha p0 hh
      · rw [List.chain'_map]
        exact hb
      · intro e he
        rcases List.mem_map.1 he with ⟨p, hp, rfl⟩
        obtain ⟨h1, h2, h3, h4, h5, h6⟩ := hc p hp
        have hq : p.quantity.isSome = true := by
          simpa using List.all_eq_true.1 hall p hp
        obtain ⟨q, hq2⟩ := Option.isSome_iff_exists.1 hq
        refine ⟨h1, h2, h3, h4, h5, ?_⟩
        show some (p.quantity.getD 0)
          = calculate_consumption_for_interval samples workspace sku p.event_start p.event_end
        rw [hq2, Option.getD_some, ← h6, hq2]
      · rw [List.getLast?_map, Option.map_map]
        exact hd
    · rw [hres]
      constructor
      · intro hcontra
        exact absurd hcontra (by simp)
      · rintro ⟨p, hp, hnone⟩
        have h6 := (hc p hp).2.2.2.2.2
        have hq : p.quantity.isSome = true := by
          simpa using List.all_eq_true.1 hall p hp
        rw [h6, hnone] at hq
        simp at hq
  · rw [if_neg hall] at hres
    refine ⟨?_, ?_, fun ev2 s2 msg => rfl⟩
    · intro evs hevs
      rw [hres] at hevs
      exact absurd hevs (by simp)
    · rw [hres]
      simp only [List.all_eq_true] at hall
      push_neg at hall
      obtain ⟨p, hp, hq⟩ := hall
      have hq2 : p.quantity = none := by
        cases hqq : p.quantity with
        | none => rfl
        | some q => rw [hqq] at hq; simp at hq
      refine ⟨fun _ => ⟨p, hp, ?_⟩, fun _ => rfl⟩
      have h6 := (hc p hp).2.2.2.2.2
      rw [← h6]
      exact hq2

/-- The retrieved data of the counterexample window `[00:30, 01:00)` has two
samples, so its estimated consumption is defined (rate 2 for the last 15
minutes of the window). -/
theorem c3Samples_window1 :
    calculate_consumption_for_interval c3Samples "w" "s" 1800 3600 = some 1800 := by
  norm_num [calculate_consumption_for_interval, find_data_for_interval, c3Samples,
    consumption_from_samples, lastTwo, seconds_after, sample_after, interpolate, trapSum,
    pickMaxBy, pickMinBy, sortBy, insertSorted, sampleTimeLE]

/-- The counterexample window `[01:00, 02:00)` also retrieves two samples
(predecessor and successor), giving a defined consumption. -/
theorem c3Samples_window2 :
    calculate_consumption_for_interval c3Samples "w" "s" 3600 7200 = some 7200 := by
  norm_num [calculate_consumption_for_interval, find_data_for_interval, c3Samples,
    consumption_from_samples, lastTwo, seconds_after, sample_after, interpolate, trapSum,
    pickMaxBy, pickMinBy, sortBy, insertSorted, sampleTimeLE]

/-- The window loop of the misaligned-resume state: a 30-minute window
`[00:30, 01:00)` followed by the full hour `[01:00, 02:00)`. -/
theorem c3_genLoop_concrete :
    genLoop c3Samples "w" "s" 7200 1800 =
      [mkEstimate c3Samples "w" "s" 1800 3600, mkEstimate c3Samples "w" "s" 3600 7200] := by
  have e1 : floor_to_hour (1800 + 3600) = 3600 := by decide
  have e2 : floor_to_hour (3600 + 3600) = 7200 := by decide
  have e3 : floor_to_hour (7200 + 3600) = 10800 := by decide
  have h3 : genLoop c3Samples "w" "s" 7200 7200 = [] := by
    rw [genLoop_eq, e3, if_neg (by norm_num)]
  have h2 : genLoop c3Samples "w" "s" 7200 3600 = [mkEstimate c3Samples "w" "s" 3600 7200] := by
    rw [genLoop_eq, e2, if_pos (by norm_num), h3]
  rw [genLoop_eq, e1, if_pos (by norm_num), h2]

/-- On the misaligned-resume state with both windows' consumption defined, the
commit succeeds and inserts exactly the two rows of the loop. -/
theorem c3_generate_concrete :
    generate_new_estimates c3MisalignedEvents c3Samples "w" "s" 7200 =
      some (GenResult.ok [estOfPending (mkEstimate c3Samples "w" "s" 1800 3600),
                          estOfPending (mkEstimate c3Samples "w" "s" 3600 7200)]) := by
  have hstart : genStartingPoint c3MisalignedEvents c3Samples "w" "s" = some 1800 := by decide
  have hflush : flushEstimates [mkEstimate c3Samples "w" "s" 1800 3600,
      mkEstimate c3Samples "w" "s" 3600 7200]
      = some [estOfPending (mkEstimate c3Samples "w" "s" 1800 3600),
              estOfPending (mkEstimate c3Samples "w" "s" 3600 7200)] := by
    have hallc : ([mkEstimate c3Samples "w" "s" 1800 3600,
        mkEstimate c3Samples "w" "s" 3600 7200].all fun p => p.quantity.isSome) = true := by
      show ((mkEstimate c3Samples "w" "s" 1800 3600).quantity.isSome &&
        ((mkEstimate c3Samples "w" "s" 3600 7200).quantity.isSome && true)) = true
      rw [show (mkEstimate c3Samples "w" "s" 1800 3600).quantity
          = calculate_consumption_for_interval c3Samples "w" "s" 1800 3600 from rfl,
        show (mkEstimate c3Samples "w" "s" 3600 7200).quantity
          = calculate_consumption_for_interval c3Samples "w" "s" 3600 7200 from rfl,
        c3Samples_window1, c3Samples_window2]
      rfl
    rw [flushEstimates_eq, if_pos hallc]
    rfl
  unfold generate_new_estimates
  rw [hstart, Option.map_some', c3_genLoop_concrete, hflush]

/-- C3 counterexample: with a stored billing event ending at 00:30, samples at
00:45 and 02:05, and `upto` = 02:00, the commit succeeds and the inserted
events are `[00:30, 01:00)` and `[01:00, 02:00)` — the first window is 30
minutes, not one hour, so the claim's "consecutive one-hour windows" fails as
stated. -/
theorem c3_estimate_generation_counterexample :
    (∃ evs, generate_new_estimates c3MisalignedEvents c3Samples "w" "s" 7200
        = some (GenResult.ok evs) ∧
      evs.map (fun e => (e.event_start, e.event_end))
        = [((1800 : Int), (3600 : Int)), (3600, 7200)]) ∧
    ¬((3600 : Int) - 1800 = 3600) := by
  refine ⟨⟨[estOfPending (mkEstimate c3Samples "w" "s" 1800 3600),
            estOfPending (mkEstimate c3Samples "w" "s" 3600 7200)],
      c3_generate_concrete, ?_⟩, by norm_num⟩
  simp [estOfPending, mkEstimate]

/-- Witness for `c3_estimate_generation` on the misaligned-resume state with
defined consumptions. -/
theorem c3_estimate_generation_witness :
    ((genStartingPoint c3MisalignedEvents c3Samples "w" "s" = some 1800) ∧
      generate_new_estimates c3MisalignedEvents c3Samples "w" "s" 7200
        = some (GenResult.ok [estOfPending (mkEstimate c3Samples "w" "s" 1800 3600),
                              estOfPending (mkEstimate c3Samples "w" "s" 3600 7200)])) ∧
    [estOfPending (mkEstimate c3Samples "w" "s" 1800 3600),
     estOfPending (mkEstimate c3Samples "w" "s" 3600 7200)].Chain'
      (fun a b => b.event_start = a.event_end) :=
  ⟨⟨by decide, c3_generate_concrete⟩,
    ((c3_estimate_generation c3MisalignedEvents c3Samples "w" "s" 7200 1800 _
        (by decide) c3_generate_concrete).1 _ rfl).2.1⟩

theorem floor_to_day_idem (t : Int) : floor_to_day (floor_to_day t) = floor_to_day t := by
  show (t - t % 86400) - (t - t % 86400) % 86400 = t - t % 86400
  omega

theorem pickMinBy_min {α : Type} {f : α → Int} {l : List α} {x : α}
    (h : pickMinBy f l = some x) : ∀ y ∈ l, f x ≤ f y := by
  induction l generalizing x with
  | nil => simp [pickMinBy] at h
  | cons a t ih =>
    rw [pickMinBy] at h
    intro y hy
    rcases List.mem_cons.1 hy with rfl | hy
    · split at h
      · simp only [Option.some.injEq] at h; subst h; exact le_refl _
      · rename_i m hm
        split at h <;> rename_i hle <;> simp only [Option.some.injEq] at h <;> subst h
        · exact le_refl _
        · omega
    · split at h
      · rename_i hm
        have ht := pickMinBy_eq_none.1 hm
        subst ht
        simp at hy
      · rename_i m hm
        split at h <;> rename_i hle <;> simp only [Option.some.injEq] at h <;> subst h
        · exact le_trans hle (ih hm y hy)
        · exact ih hm y hy


theorem mem_dedupKeys {k : String × String × Option Nat × Int}
    {l : List (String × String × Option Nat × Int)} :
    k ∈ dedupKeys l ↔ k ∈ l := by
  induction l with
  | nil => simp [dedupKeys]
  | cons a t ih =>
    rw [dedupKeys]
    by_cases ha : a ∈ t
    · rw [if_pos ha, ih]
      constructor
      · intro h; exact List.mem_cons_of_mem _ h
      · intro h
        rcases List.mem_cons.1 h with rfl | h
        · exact ha
        · exact h
    · rw [if_neg ha]
      simp [ih]


theorem aggKey_aggRow (events : List BillingEvent) (e : BillingEvent) :
    aggKey (aggRow events (aggKey e)) = aggKey e := by
  simp [aggKey, aggRow, floor_to_day_idem]

/-- C1: with `time_aggregation = "day"`, the returned rows are the input
billing events grouped by `(workspace, item, user, UTC day of event_start)`:
the row keys are exactly the distinct keys of the filtered events, each row
sums its group quantities, spans exactly its day bucket, and carries the uuid
of the earliest contributing event; scenario E2 yields the daily totals 1.11
and 0.20. -/
theorem c1_day_aggregation (events : List BillingEvent) :
    ((aggregateDay events).map aggKey = dedupKeys (events.map aggKey)) ∧
    (∀ r ∈ aggregateDay events,
      (∃ e ∈ events, aggKey e = aggKey r) ∧
      r.event_start = floor_to_day r.event_start ∧
      r.event_end = r.event_start + 86400 ∧
      r.quantity =
        ((events.filter (fun e => aggKey e == aggKey r)).map (fun e => e.quantity)).sum ∧
      (∃ e ∈ events.filter (fun e => aggKey e == aggKey r),
        r.uuid = e.uuid ∧
        ∀ e2 ∈ events.filter (fun e2 => aggKey e2 == aggKey r),
          e.event_start ≤ e2.event_start)) ∧
    find_billing_events_agg e2db (some "workspace1") none none none none 100 (some "day") =
      [⟨1, 1735689600, 1735776000, "sku1", none, "workspace1", 111/100⟩,
       ⟨4, 1735776000, 1735862400, "sku1", none, "workspace1", 1/5⟩] := by
  refine ⟨?_, ?_, ?_⟩
  · unfold aggregateDay
    rw [List.map_map]
    have hcong : ∀ k ∈ dedupKeys (events.map aggKey),
        (aggKey ∘ aggRow events) k = id k := by
      intro k hk
      rcases List.mem_map.1 (mem_dedupKeys.1 hk) with ⟨e, he, rfl⟩
      exact aggKey_aggRow events e
    rw [List.map_congr_left hcong, List.map_id]
  · intro r hr
    rcases List.mem_map.1 hr with ⟨k, hk, rfl⟩
    rcases List.mem_map.1 (mem_dedupKeys.1 hk) with ⟨e, he, rfl⟩
    have haggr := aggKey_aggRow events e
    rw [haggr]
    refine ⟨⟨e, he, rfl⟩, ?_, ?_, ?_, ?_⟩
    · show (aggKey e).2.2.2 = floor_to_day (aggKey e).2.2.2
      exact (floor_to_day_idem e.event_start).symm
    · rfl
    · rfl
    · have hegrp : e ∈ events.filter (fun e2 => aggKey e2 == aggKey e) := by
        simp [List.mem_filter, he]
      cases hmin : pickMinBy (fun e2 => e2.event_start)
          (events.filter (fun e2 => aggKey e2 == aggKey e)) with
      | none =>
        have := pickMinBy_eq_none.1 hmin
        rw [this] at hegrp
        simp at hegrp
      | some x =>
        refine ⟨x, pickMinBy_mem hmin, ?_, pickMinBy_min hmin⟩
        show ((pickMinBy (fun e2 => e2.event_start)
          (events.filter (fun e2 => aggKey e2 == aggKey e))).map (fun e2 => e2.uuid)).getD 0
            = x.uuid
        rw [hmin]
        rfl
  · norm_num [find_billing_events_agg, aggregateDay, aggRow, aggKey, dedupKeys, e2db,
      floor_to_day, pickMinBy, sortBy, insertSorted, eventLE, eventAfter, matchesQuery,
      strLt, charListLt]

/-- C5: inserting a billing-event message whose UUID is already stored leaves
the store completely unchanged and returns `none`; a fresh UUID appends the
row and returns that UUID; re-inserting after any successful insert changes
nothing and returns `none`. -/
theorem c5_insert_idempotent (db : EventDB) (msg : BillingEventMessage)
    (hsku : db.items.contains msg.sku = true) :
    (db.events.any (fun e => e.uuid == msg.uuid) = true →
      insert_from_message db msg = Except.ok (db, none)) ∧
    (db.events.any (fun e => e.uuid == msg.uuid) = false →
      insert_from_message db msg =
        Except.ok ({ db with events := db.events ++ [eventOfMessage msg] }, some msg.uuid)) ∧
    (∀ db2 r, insert_from_message db msg = Except.ok (db2, r) →
      insert_from_message db2 msg = Except.ok (db2, none)) := by
  have hins : insert_from_message db msg =
      if db.events.any (fun e => e.uuid == msg.uuid) then Except.ok (db, none)
      else Except.ok ({ db with events := db.events ++ [eventOfMessage msg] }, some msg.uuid) := by
    unfold insert_from_message
    rw [if_pos hsku]
  refine ⟨?_, ?_, ?_⟩
  · intro h; rw [hins, if_pos h]
  · intro h; rw [hins, if_neg (by simp [h])]
  · intro db2 r hok
    rw [hins] at hok
    by_cases h : db.events.any (fun e => e.uuid == msg.uuid) = true
    · rw [if_pos h] at hok
      simp only [Except.ok.injEq, Prod.mk.injEq] at hok
      obtain ⟨h1, h2⟩ := hok
      subst h1
      rw [hins, if_pos h]
    · rw [if_neg h] at hok
      simp only [Except.ok.injEq, Prod.mk.injEq] at hok
      obtain ⟨h1, h2⟩ := hok
      subst h1
      have hmem : msg.sku ∈ db.items := by simpa using hsku
      simp [insert_from_message, hmem, eventOfMessage]

/-- C5 witness: concrete duplicate insert with every other field differing. -/
theorem c5_insert_idempotent_witness :
    insert_from_message c5db c5msgDup = Except.ok (c5db, none) :=
  (c5_insert_idempotent c5db c5msgDup (by decide)).1 (by decide)

/-- C6: `upsert_configured_price` fails on an unknown SKU without touching
the tables; an exact `(item, valid_from)` match updates only that price's
amount; a `valid_from` earlier than the latest existing price for the item
fails with a price-out-of-order error and changes nothing (errors carry no
state); otherwise the latest price is closed at the new `valid_from` and a
new open-ended price is appended — as in the E6 scenario chain. -/
theorem c6_upsert_price (db : CatalogDB) (sku : String) (valid_from : Int) (price : ℚ)
    (now : Int) (new_uuid : Nat) :
    (find_billing_item db sku = none →
      upsert_configured_price db sku valid_from price now new_uuid =
        Except.error PriceError.unknownSku) ∧
    (∀ item, find_billing_item db sku = some item →
      db.prices.any (fun p => p.item_id == item.uuid && p.valid_from == valid_from) = true →
      ∃ db2, upsert_configured_price db sku valid_from price now new_uuid = Except.ok db2 ∧
        db2.items = db.items ∧
        db2.prices = db.prices.map (fun p =>
          if p.item_id == item.uuid && p.valid_from == valid_from
          then { p with price := price } else p) ∧
        (∀ p ∈ db.prices, ¬(p.item_id = item.uuid ∧ p.valid_from = valid_from) →
          p ∈ db2.prices) ∧
        (∀ p ∈ db.prices, p.item_id = item.uuid ∧ p.valid_from = valid_from →
          { p with price := price } ∈ db2.prices)) ∧
    (∀ item latest, find_billing_item db sku = some item →
      db.prices.any (fun p => p.item_id == item.uuid && p.valid_from == valid_from) = false →
      pickMaxBy (fun p => p.valid_from)
        (db.prices.filter (fun p => p.item_id == item.uuid)) = some latest →
      (valid_from < latest.valid_from →
        upsert_configured_price db sku valid_from price now new_uuid =
          Except.error PriceError.priceOutOfOrder) ∧
      (latest.valid_from ≤ valid_from →
        upsert_configured_price db sku valid_from price now new_uuid =
          Except.ok { db with prices :=
            (db.prices.map (fun p =>
              if p.uuid == latest.uuid then { p with valid_until := some valid_from } else p))
            ++ [⟨new_uuid, item.uuid, price, valid_from, none, now⟩] })) ∧
    upsert_configured_price e6db "sku1" 1735689600 (1235/100) 5 11 =
      Except.ok { items := [⟨1, "sku1", "", ""⟩],
                  prices := [⟨10, 1, 1235/100, 1735689600, none, 0⟩] } ∧
    upsert_configured_price
        { items := [⟨1, "sku1", "", ""⟩],
          prices := [⟨10, 1, 1235/100, 1735689600, none, 0⟩] }
        "sku1" 1735776000 11 6 12 =
      Except.ok { items := [⟨1, "sku1", "", ""⟩],
                  prices := [⟨10, 1, 1235/100, 1735689600, some 1735776000, 0⟩,
                             ⟨12, 1, 11, 1735776000, none, 6⟩] } := by
  refine ⟨?_, ?_, ?_, ?_, ?_⟩
  · intro h
    simp [upsert_configured_price, h]
  · intro item hitem hany
    refine ⟨{ db with prices := db.prices.map (fun p =>
        if p.item_id == item.uuid && p.valid_from == valid_from
        then { p with price := price } else p) }, ?_, rfl, rfl, ?_, ?_⟩
    · simp only [upsert_configured_price, hitem]
      rw [if_pos hany]
    · intro p hp hnot
      refine List.mem_map.2 ⟨p, hp, ?_⟩
      rw [if_neg]
      simpa [Bool.and_eq_true, beq_iff_eq] using hnot
    · intro p hp hmatch
      refine List.mem_map.2 ⟨p, hp, ?_⟩
      rw [if_pos]
      simpa [Bool.and_eq_true, beq_iff_eq] using hmatch
  · intro item latest hitem hany hmax
    constructor
    · intro hlt
      simp only [upsert_configured_price, hitem, hany, Bool.false_eq_true, if_false, hmax]
      rw [if_pos hlt]
    · intro hge
      simp only [upsert_configured_price, hitem, hany, Bool.false_eq_true, if_false, hmax]
      rw [if_neg (not_lt.2 hge)]
  · norm_num [upsert_configured_price, find_billing_item, e6db, pickMaxBy]
  · norm_num [upsert_configured_price, find_billing_item, pickMaxBy]

theorem accountOf_record (db : List WorkspaceAccount) (acc a : Nat) (w w2 : String)
    (h : accountOf db w = some a) : accountOf (record_mapping db acc w2).1 w = some a := by
  unfold record_mapping
  by_cases hany : (db.any (fun r => r.workspace == w2)) = true
  · rw [if_pos hany]
    exact h
  · rw [if_neg hany]
    unfold accountOf at h ⊢
    rw [List.find?_append]
    cases hf : db.find? (fun r => r.workspace == w) with
    | none => rw [hf] at h; simp at h
    | some x =>
      rw [hf] at h
      simpa using h

/-- C7: `record_mapping` inserts the `(workspace, account)` row exactly when
no row for that workspace exists and returns whether it inserted; over any
sequence of workspace-settings messages an established mapping never changes
(first writer wins), and a later call for a mapped workspace returns
`false`. -/
theorem c7_first_writer_wins (db : List WorkspaceAccount) (account : Nat)
    (workspace : String) (msgs : List WorkspaceSettingsMessage) (a : Nat) :
    ((record_mapping db account workspace).2 = true ↔
      ¬∃ r ∈ db, r.workspace = workspace) ∧
    ((record_mapping db account workspace).2 = true →
      (record_mapping db account workspace).1 = db ++ [⟨workspace, account⟩]) ∧
    ((record_mapping db account workspace).2 = false →
      (record_mapping db account workspace).1 = db) ∧
    (accountOf db workspace = some a →
      accountOf (processAllSettings db msgs) workspace = some a) ∧
    (accountOf db workspace = some a →
      ∀ msg : WorkspaceSettingsMessage, msg.name = workspace →
        (process_workspace_settings db msg).2 = false) := by
  refine ⟨?_, ?_, ?_, ?_, ?_⟩
  · by_cases hany : (db.any (fun r => r.workspace == workspace)) = true
    · rw [record_mapping, if_pos hany]
      simp only [List.any_eq_true, beq_iff_eq] at hany
      simp [hany]
    · rw [record_mapping, if_neg hany]
      simp only [List.any_eq_true, beq_iff_eq] at hany
      simpa using hany
  · intro ht
    by_cases hany : (db.any (fun r => r.workspace == workspace)) = true
    · rw [record_mapping, if_pos hany] at ht
      simp at ht
    · rw [record_mapping, if_neg hany]
  · intro hf
    by_cases hany : (db.any (fun r => r.workspace == workspace)) = true
    · rw [record_mapping, if_pos hany]
    · rw [record_mapping, if_neg hany] at hf
      simp at hf
  · intro h
    induction msgs generalizing db with
    | nil => exact h
    | cons m rest ih =>
      show accountOf (processAllSettings (process_workspace_settings db m).1 rest) workspace
        = some a
      exact ih _ (accountOf_record db m.account a workspace m.name h)
  · intro h msg hname
    show (record_mapping db msg.account msg.name).2 = false
    rw [hname, record_mapping, if_pos]
    · unfold accountOf at h
      cases hf : db.find? (fun r => r.workspace == workspace) with
      | none => rw [hf] at h; simp at h
      | some x =>
        have hx := List.find?_some hf
        have hmem := List.mem_of_find?_eq_some hf
        simp only [List.any_eq_true]
        exact ⟨x, hmem, hx⟩

/-- C8: token decoding never verifies the signature, so two well-formed
tokens with equal payloads give identical decode results, authorisation
outcomes and endpoint responses regardless of their signatures; and a payload
listing the workspace or account is accepted whatever the signature. -/
theorem c8_signature_never_verified (p : TokenPayload) (sig1 sig2 : String)
    (w : String) (acct : Nat) (ro ah : Bool) (db : EventDB) (s e_ : Option Int)
    (lim : Option Nat) (af : Option Nat) (agg : Option String) (ra : RealmAccess)
    (hra : p.realm_access = some ra) (hw : w ∈ p.workspaces)
    (hacct : acct ∈ p.billing_accounts) :
    decode_jwt_token ⟨p, sig1⟩ = decode_jwt_token ⟨p, sig2⟩ ∧
    workspace_authz w (decode_jwt_token ⟨p, sig1⟩) ro ah =
      workspace_authz w (decode_jwt_token ⟨p, sig2⟩) ro ah ∧
    account_authz acct (decode_jwt_token ⟨p, sig1⟩) ah =
      account_authz acct (decode_jwt_token ⟨p, sig2⟩) ah ∧
    get_workspace_usage_data db w ⟨p, sig1⟩ s e_ lim af agg =
      get_workspace_usage_data db w ⟨p, sig2⟩ s e_ lim af agg ∧
    get_account_usage_data db acct ⟨p, sig1⟩ s e_ lim af =
      get_account_usage_data db acct ⟨p, sig2⟩ s e_ lim af ∧
    workspace_authz w (decode_jwt_token ⟨p, sig1⟩) false ah = Except.ok w ∧
    account_authz acct (decode_jwt_token ⟨p, sig1⟩) ah = Except.ok acct := by
  refine ⟨rfl, rfl, rfl, rfl, rfl, ?_, ?_⟩
  · by_cases hadmin : (ah && ra.roles.contains "hub_admin") = true <;>
      simp [decode_jwt_token, workspace_authz, hra, hadmin, hw]
  · by_cases hadmin : (ah && ra.roles.contains "hub_admin") = true <;>
      simp [decode_jwt_token, account_authz, hra, hadmin, hacct]

/-- C8 witness: a member token with a bogus signature is accepted. -/
theorem c8_signature_never_verified_witness :
    workspace_authz "workspace1" (decode_jwt_token ⟨payloadMember, "invalid-signature"⟩)
      false false = Except.ok "workspace1" :=
  (c8_signature_never_verified payloadMember "invalid-signature" "" "workspace1" 7
    false false e2db none none none none none ⟨["user"]⟩ rfl (by decide)
    (by decide)).2.2.2.2.2.1

/-- C9: a token payload without the `realm_access` key makes both
authorisation helpers raise `KeyError` — an unhandled server error distinct
from every 400/401 HTTP error — even when the membership lists would
authorise the request and hub-admin is allowed. -/
theorem c9_missing_realm_access (w : String) (acct : Nat) (p : TokenPayload) (ro ah : Bool)
    (hnone : p.realm_access = none) :
    workspace_authz w p ro ah = Except.error (AuthzError.keyError "realm_access") ∧
    account_authz acct p ah = Except.error (AuthzError.keyError "realm_access") ∧
    (∀ st d, AuthzError.keyError "realm_access" ≠ AuthzError.http st d) := by
  refine ⟨?_, ?_, ?_⟩
  · simp [workspace_authz, hnone]
  · simp [account_authz, hnone]
  · intro st d h
    exact AuthzError.noConfusion h

/-- C9 witness: a payload whose memberships would authorise both requests
still raises. -/
theorem c9_missing_realm_access_witness :
    workspace_authz "workspace1" payloadNoRealm false true =
      Except.error (AuthzError.keyError "realm_access") ∧
    account_authz 7 payloadNoRealm true =
      Except.error (AuthzError.keyError "realm_access") :=
  ⟨(c9_missing_realm_access "workspace1" 7 payloadNoRealm false true rfl).1,
   (c9_missing_realm_access "workspace1" 7 payloadNoRealm false true rfl).2.1⟩

/-- C10: `limit or 100` makes an explicit `limit=0` behave exactly like an
absent limit on both usage-data endpoints — up to 100 events are returned
rather than an empty list (concretely: four events for scenario E2). -/
theorem c10_limit_zero (db : EventDB) (w : String) (t : Token) (acct : Nat)
    (s e_ : Option Int) (af : Option Nat) (agg : Option String) :
    effective_limit (some 0) = effective_limit none ∧
    get_workspace_usage_data db w t s e_ (some 0) af agg =
      get_workspace_usage_data db w t s e_ none af agg ∧
    get_account_usage_data db acct t s e_ (some 0) af =
      get_account_usage_data db acct t s e_ none af ∧
    (∀ evs, get_workspace_usage_data db w t s e_ (some 0) af agg = Except.ok evs →
      evs.length ≤ 100) ∧
    (∀ evs, get_account_usage_data db acct t s e_ (some 0) af = Except.ok evs →
      evs.length ≤ 100) ∧
    get_workspace_usage_data e2db "workspace1" ⟨payloadMember, "x"⟩ none none (some 0)
      none none = Except.ok e2db.events := by
  refine ⟨rfl, rfl, rfl, ?_, ?_, ?_⟩
  · intro evs hev
    simp only [get_workspace_usage_data] at hev
    split at hev
    · exact absurd hev (by simp)
    · simp only [Except.ok.injEq] at hev
      subst hev
      simp only [find_billing_events_agg, effective_limit]
      exact le_trans (List.length_take_le _ _) (by norm_num)
  · intro evs hev
    simp only [get_account_usage_data] at hev
    split at hev
    · exact absurd hev (by simp)
    · simp only [Except.ok.injEq] at hev
      subst hev
      simp only [find_billing_events, effective_limit]
      exact le_trans (List.length_take_le _ _) (by norm_num)
  · norm_num [get_workspace_usage_data, decode_jwt_token, workspace_authz, payloadMember,
      find_billing_events_agg, e2db, matchesQuery, sortBy, insertSorted, eventLE,
      eventAfter, effective_limit, strLt, charListLt]

end Accounting
